import Mathlib

/-
Verification of the note-envelope / overlap-add mixer in
`resources/demos/gansynth.py` and the fx-convolution driver in
`experimentations/datagen/fx.py`.

NumPy 1-D float arrays are embedded as a size together with a total index
function into ℚ (machine floats are modelled by exact rationals).  Python
`int()` (truncation toward zero) is `pyInt`.  Operations that make NumPy or
Python raise (negative allocation sizes, slice-assignment length mismatches,
`max()` of an empty array, division of an array by zero) are modelled by
`Option`, returning `none` exactly where the Python code raises or performs
a division by zero.
-/

/-- NumPy-style 1-D array: a length together with a total index function.
Only indices below `size` are meaningful. -/
structure Arr where
  size : ℕ
  val : ℕ → ℚ

/-- Python `int()` on a float: truncation toward zero. -/
def pyInt (q : ℚ) : ℤ := if 0 ≤ q then ⌊q⌋ else -⌊-q⌋

/-- Python `round()` on a float (used only by the spec-side variant of
`combine_notes`; ties never occur at the inputs considered). -/
def pyRound (q : ℚ) : ℤ := round q

/-- np.zeros(n). -/
def zerosA (n : ℕ) : Arr := ⟨n, fun _ => 0⟩

/-- np.ones(n). -/
def onesA (n : ℕ) : Arr := ⟨n, fun _ => 1⟩

/-- Value of np.linspace(a, b, n) at index k, i.e. `a + (b-a)*k/(n-1)`
(for n = 1 the value is `a`, matching NumPy, since x/0 = 0 in ℚ). -/
def linspaceV (a b : ℚ) (n : ℕ) (k : ℕ) : ℚ := a + (b - a) * k / ((n : ℚ) - 1)

/-- np.linspace(a, b, n). -/
def linspaceA (a b : ℚ) (n : ℕ) : Arr := ⟨n, linspaceV a b n⟩

/-- Slice assignment `a[start : start + r.size] = r` (exact fit; the callers
guard the cases where NumPy would raise a broadcast error). -/
def setSlice (a : Arr) (start : ℕ) (r : Arr) : Arr :=
  ⟨a.size, fun i => if start ≤ i ∧ i < start + r.size then r.val (i - start) else a.val i⟩

/-- In-place addition `a[start : start + b.size] += b` (exact fit). -/
def addSlice (a : Arr) (start : ℕ) (b : Arr) : Arr :=
  ⟨a.size, fun i => if start ≤ i ∧ i < start + b.size then a.val i + b.val (i - start) else a.val i⟩

/-- Running maximum of `a.val 0, …, a.val n`. -/
def amaxAux (a : Arr) : ℕ → ℚ
  | 0 => a.val 0
  | n + 1 => max (amaxAux a n) (a.val (n + 1))

/-- np.max / `.max()` of an array; `none` on an empty array (NumPy raises). -/
def amax (a : Arr) : Option ℚ :=
  if a.size = 0 then none else some (amaxAux a (a.size - 1))

/-- `get_envelope` from gansynth.py: attack–sustain–release envelope.
`np.ones` of a negative size and a linspace of negative length raise in
NumPy, as does assigning a linspace slice longer than the array; those
cases return `none`.  With the default parameters the guard only requires
`0 ≤ i_sustain`, i.e. a non-negative note length. -/
def get_envelope (t_note_length t_attack t_release sr : ℚ) : Option Arr :=
  let t := min t_note_length 3
  let i_attack := pyInt (sr * t_attack)
  let i_sustain := pyInt (sr * t)
  let i_release := pyInt (sr * t_release)
  let i_tot := i_sustain + i_release
  if 0 ≤ i_sustain ∧ 0 ≤ i_attack ∧ 0 ≤ i_release ∧ i_attack ≤ i_tot then
    some (setSlice (setSlice (onesA i_tot.toNat) 0 (linspaceA 0 1 i_attack.toNat))
          i_sustain.toNat (linspaceA 1 0 i_release.toNat))
  else none

/-- The sample count of the clip buffer allocated by `combine_notes`:
`np.zeros(int(clip_length) * sr)` with `clip_length = end_times.max() + 3.0`. -/
def clip_samples (tmax : ℚ) (sr : ℕ) : ℕ := (pyInt (tmax + 3)).toNat * sr

/-- `end_times.max()`; `none` on an empty array (NumPy raises). -/
def npMax : List ℚ → Option ℚ
  | [] => none
  | x :: xs => some (xs.foldl max x)

/-- Truncation `audio_notes[i, :length] * envelope`; `none` when the row has
fewer samples than the envelope (NumPy broadcast error). -/
def noteAudio (row : Arr) (env : Arr) : Option Arr :=
  if env.size ≤ row.size then some ⟨env.size, fun k => row.val k * env.val k⟩ else none

/-- One loop body of `combine_notes` up to the velocity scaling:
envelope, truncating multiply, `audio_note /= audio_note.max()`,
`audio_note *= vel / 127.0`.  Note that `get_envelope` is called with its
default parameters, so the envelope always uses sr = 16000 regardless of
the sample rate passed to `combine_notes`.  `none` models the division by
zero when the enveloped note is identically zero on its window.  -/
def processNote (row : Arr) (t_start t_end vel : ℚ) : Option Arr := do
  let env ← get_envelope (t_end - t_start) (1/100) (3/10) 16000
  let an ← noteAudio row env
  let m ← amax an
  if m = 0 then none
  else some ⟨an.size, fun k => an.val k / m * (vel / 127)⟩

/-- Overlay of one processed note into the clip at
`clip_start = int(t_start * sr)`: `audio_clip[clip_start:clip_end] += audio_note`.
A negative `clip_start` or `clip_end > len(audio_clip)` makes the NumPy
slice shorter than the note, which raises a broadcast error: `none`. -/
def overlayNote (clip : Arr) (row : Arr) (t_start t_end vel : ℚ) (sr : ℕ) : Option Arr := do
  let an ← processNote row t_start t_end vel
  let o := pyInt (t_start * sr)
  if 0 ≤ o ∧ o.toNat + an.size ≤ clip.size then some (addSlice clip o.toNat an) else none

/-- Python `zip(start_times, end_times, velocities, range(n_notes))` with the
row of `audio_notes` selected by the running index: truncates at the
shortest input, exactly as `zip` does. -/
def zipNotes : List ℚ → List ℚ → List ℚ → List Arr → List (ℚ × ℚ × ℚ × Arr)
  | s :: ss, e :: es, v :: vs, r :: rs => (s, e, v, r) :: zipNotes ss es vs rs
  | _, _, _, _ => []

/-- The per-note loop of `combine_notes`. -/
def overlayLoop (sr : ℕ) : Arr → List (ℚ × ℚ × ℚ × Arr) → Option Arr
  | clip, [] => some clip
  | clip, (ts, te, v, row) :: rest => do
      let c ← overlayNote clip row ts te v sr
      overlayLoop sr c rest

/-- `combine_notes` from gansynth.py.  The clip buffer is
`np.zeros(int(end_times.max() + 3.0) * sr)` (`none` if the size is negative,
where `np.zeros` raises); each note is enveloped, normalized, velocity
scaled and added at `int(t_start * sr)`; finally
`audio_clip /= audio_clip.max()` (`none` on a division by zero, i.e. a zero
maximum, and on an empty clip where `.max()` raises) and `audio_clip /= 2.0`. -/
def combine_notes (audio_notes : List Arr) (start_times end_times velocities : List ℚ)
    (sr : ℕ) : Option Arr := do
  let tmax ← npMax end_times
  if 0 ≤ pyInt (tmax + 3) then
    let clip ← overlayLoop sr (zerosA (clip_samples tmax sr))
      (zipNotes start_times end_times velocities audio_notes)
    let m ← amax clip
    if m = 0 then none
    else some ⟨clip.size, fun i => clip.val i / m / 2⟩
  else none

/-- Spec-side variant of `combine_notes` for comparison: identical except
that, as the spec claims, each note is overlaid starting at
`round(t_start * sr)` instead of the code's `int(t_start * sr)`. -/
def overlayNoteRound (clip : Arr) (row : Arr) (t_start t_end vel : ℚ) (sr : ℕ) : Option Arr := do
  let an ← processNote row t_start t_end vel
  let o := pyRound (t_start * sr)
  if 0 ≤ o ∧ o.toNat + an.size ≤ clip.size then some (addSlice clip o.toNat an) else none

/-- Spec-side per-note loop using the rounded offset. -/
def overlayLoopRound (sr : ℕ) : Arr → List (ℚ × ℚ × ℚ × Arr) → Option Arr
  | clip, [] => some clip
  | clip, (ts, te, v, row) :: rest => do
      let c ← overlayNoteRound clip row ts te v sr
      overlayLoopRound sr c rest

/-- Spec-side `combine_notes` with rounded overlay offsets (refinement
comparison target for the claim that notes are placed at
`round(start_time * sample_rate)`). -/
def combine_notes_round (audio_notes : List Arr) (start_times end_times velocities : List ℚ)
    (sr : ℕ) : Option Arr := do
  let tmax ← npMax end_times
  if 0 ≤ pyInt (tmax + 3) then
    let clip ← overlayLoopRound sr (zerosA (clip_samples tmax sr))
      (zipNotes start_times end_times velocities audio_notes)
    let m ← amax clip
    if m = 0 then none
    else some ⟨clip.size, fun i => clip.val i / m / 2⟩
  else none

/-- The number of sustain samples of the envelope at the default parameters:
`int(16000 * min(t_note_length, 3.0))`. -/
def sustainSamples (d : ℚ) : ℕ := (pyInt (16000 * min d 3)).toNat

/-- Closed form of the array built by `get_envelope` at its default
parameters (`i_attack = 160`, `i_release = 4800`): ones of length
`sustainSamples d + 4800`, overwritten by the attack linspace on `[0, 160)`
and then by the release linspace on `[sustainSamples d, sustainSamples d + 4800)`. -/
def envelopeArr (d : ℚ) : Arr :=
  setSlice (setSlice (onesA (sustainSamples d + 4800)) 0 (linspaceA 0 1 160))
    (sustainSamples d) (linspaceA 1 0 4800)

/-- Concrete audio row used as a counterexample input: 4800 samples with
value 1 at index 0, -4 at index 1 and 0 elsewhere. -/
def rowC5 : Arr := ⟨4800, fun k => if k = 0 then 1 else if k = 1 then -4 else 0⟩

/-- Invariant of the overlay loop of `combine_notes`: every sample from the
write frontier `F` onward is still zero, and, once at least one note has
been placed, the sample just before the frontier is zero (each placed note
ends in the exact zero that closes its release ramp).  It yields
`0 ≤ audio_clip.max()` for every run of the loop. -/
def padded (clip : Arr) (F : ℕ) : Prop :=
  F ≤ clip.size ∧ (∀ i, F ≤ i → i < clip.size → clip.val i = 0) ∧
    (0 < F → clip.val (F - 1) = 0)

/-
Embedding of `experimentations/datagen/fx.py`.  The helper modules it
imports (`datagen.utils`, `parser._toml`, `scipy.signal.convolve`) are not
part of the repository sources, so their semantics are modelled from the
spec where needed; `_convolve` and `_apply_fxs` themselves are translated
from the source.  Audio signals are a sample rate, a channel count, a frame
count and a total (channel, frame) indexing function.
-/

/-- Audio signal: sample rate, channel count, frame count, sample data. -/
structure Sig where
  rate : ℕ
  chans : ℕ
  len : ℕ
  data : ℕ → ℕ → ℚ

/-- Modelled from the spec: `frame_count()` of a signal (the pydub-style
helper module is not under src); the number of frames. -/
def Sig.frame_count (s : Sig) : ℕ := s.len

/-- Modelled from the spec: `utils.__set_sample_rate` resamples a signal to
the configured target rate.  Resampling itself is external library work; the
model records the new rate and keeps channel structure and data, which is
all the claims depend on. -/
def __set_sample_rate (s : Sig) (r : ℕ) : Sig := ⟨r, s.chans, s.len, s.data⟩

/-- Modelled from the spec: `utils.__is_mono`, whether a signal has a single
channel. -/
def __is_mono (s : Sig) : Prop := s.chans = 1

instance (s : Sig) : Decidable (__is_mono s) := Nat.decEq s.chans 1

/-- Modelled from the spec: `utils.__mono` downmixes a signal to one channel
(channel average). -/
def __mono (s : Sig) : Sig :=
  ⟨s.rate, 1, s.len, fun _ i => (((List.range s.chans).map (fun c => s.data c i)).sum) / s.chans⟩

/-- Modelled from the spec: `utils.__convert` applies a channel conversion;
the source's one-argument form (no converter) keeps the signal as is and is
written `__convert s id` at the call sites below. -/
def __convert (s : Sig) (f : Sig → Sig) : Sig := f s

/-- Normalization strategy: the default (peak) or the `sum` builtin passed
by `_convolve` (total-energy, sum-based). -/
inductive NormKind where
  | peak : NormKind
  | sums : NormKind

/-- Peak of a signal: maximum absolute sample value over all channels. -/
def sigPeak (s : Sig) : ℚ :=
  ((List.range s.chans).map
    (fun c => ((List.range s.len).map (fun i => |s.data c i|)).foldl max 0)).foldl max 0

/-- Modelled from the spec: the total-energy quantity used by sum-based
normalization, the sum of absolute sample values over all channels. -/
def sigSum (s : Sig) : ℚ :=
  ((List.range s.chans).map (fun c => ((List.range s.len).map (fun i => |s.data c i|)).sum)).sum

/-- Pointwise division of a signal by a scalar. -/
def scaleSig (s : Sig) (d : ℚ) : Sig := ⟨s.rate, s.chans, s.len, fun c i => s.data c i / d⟩

/-- Modelled from the spec: `utils.__normalize`; peak normalization by
default, sum-based normalization when the `sum` strategy is passed. -/
def __normalize (s : Sig) (k : NormKind) : Sig :=
  match k with
  | NormKind.peak => scaleSig s (sigPeak s)
  | NormKind.sums => scaleSig s (sigSum s)

/-- Modelled from the spec: float samples are converted to integer PCM. -/
def __float2pcm (s : Sig) : Sig :=
  ⟨s.rate, s.chans, s.len, fun c i => ((pyInt (s.data c i * 32767) : ℤ) : ℚ)⟩

/-- Convolution mode, an external configuration value. -/
inductive ConvMode where
  | full : ConvMode
  | same : ConvMode
  | valid : ConvMode

/-- Modelled from the spec: the TOML-backed configuration providing
`audio.s_rate` and `audio.conv_mod`. -/
structure FxConfig where
  s_rate : ℕ
  conv_mod : ConvMode

/-- Output length of `scipy.signal.convolve` by mode. -/
def convLen (mode : ConvMode) (n m : ℕ) : ℕ :=
  match mode with
  | ConvMode.full => n + m - 1
  | ConvMode.same => n
  | ConvMode.valid => n + 1 - m

/-- Start offset into the full convolution for each mode. -/
def convOff (mode : ConvMode) (m : ℕ) : ℕ :=
  match mode with
  | ConvMode.full => 0
  | ConvMode.same => (m - 1) / 2
  | ConvMode.valid => m - 1

/-- Modelled from the spec: `scipy.signal.convolve`, per-channel discrete
convolution with full/same/valid windowing. -/
def scipy_convolve (mode : ConvMode) (a b : Sig) : Sig :=
  ⟨a.rate, max a.chans b.chans, convLen mode a.len b.len, fun c i =>
    ((List.range a.len).map (fun j =>
      if j ≤ i + convOff mode b.len ∧ i + convOff mode b.len - j < b.len then
        a.data c j * b.data c (i + convOff mode b.len - j)
      else 0)).sum⟩

/-- Array dimension count of a signal as NumPy sees it: 1-D when mono. -/
def Sig.ndim (s : Sig) : ℕ := if s.chans = 1 then 1 else 2

/-- The two signals `_dry, _fx` as prepared by `_convolve` right before the
convolution call (lines 19-24 of fx.py): both resampled to the configured
rate, then either both downmixed to mono and peak-normalized (if either is
mono) or both kept as they are and sum-normalized. -/
def _convolve_prepared (cfg : FxConfig) (dry fx : Sig) : Sig × Sig :=
  let dry2 := __set_sample_rate dry cfg.s_rate
  let fx2 := __set_sample_rate fx cfg.s_rate
  if __is_mono dry2 ∨ __is_mono fx2 then
    (__normalize (__convert dry2 __mono) NormKind.peak,
     __normalize (__convert fx2 __mono) NormKind.peak)
  else
    (__normalize (__convert dry2 id) NormKind.sums,
     __normalize (__convert fx2 id) NormKind.sums)

/-- `_convolve` from fx.py: prepare both signals, convolve with the
configured mode, sum-normalize a 2-D result or peak-normalize a 1-D one,
and PCM-encode. -/
def _convolve (cfg : FxConfig) (dry fx : Sig) : Sig :=
  let p := _convolve_prepared cfg dry fx
  let c := scipy_convolve cfg.conv_mod p.1 p.2
  __float2pcm (if c.ndim = 2 then __normalize c NormKind.sums else __normalize c NormKind.peak)

/-- `_apply_fxs` from fx.py: an empty result when the dry signal has zero
frames (the loop is never entered, so `func` is never invoked — the result
is the same for every `func`); otherwise one `func dry fx` per fx, in
order. -/
def _apply_fxs (dry : Sig) (fxs : List Sig) (func : Sig → Sig → Sig) : List Sig :=
  if dry.frame_count = 0 then [] else fxs.map (fun fx => func dry fx)

/-
Basic lemmas about the array embedding.
-/

theorem pyInt_of_nonneg {q : ℚ} (h : 0 ≤ q) : pyInt q = ⌊q⌋ := if_pos h

theorem pyInt_nonneg {q : ℚ} (h : 0 ≤ q) : 0 ≤ pyInt q := by
  rw [pyInt_of_nonneg h]
  exact Int.floor_nonneg.mpr h

theorem setSlice_size (a : Arr) (s : ℕ) (r : Arr) : (setSlice a s r).size = a.size := rfl

theorem addSlice_size (a : Arr) (s : ℕ) (b : Arr) : (addSlice a s b).size = a.size := rfl

theorem setSlice_val_in (a : Arr) {s i : ℕ} (r : Arr) (h1 : s ≤ i) (h2 : i < s + r.size) :
    (setSlice a s r).val i = r.val (i - s) := by
  simp [setSlice, h1, h2]

theorem setSlice_val_out (a : Arr) {s i : ℕ} (r : Arr) (h : ¬(s ≤ i ∧ i < s + r.size)) :
    (setSlice a s r).val i = a.val i := by
  simp only [setSlice]
  rw [if_neg h]

theorem addSlice_val_in (a : Arr) {s i : ℕ} (b : Arr) (h1 : s ≤ i) (h2 : i < s + b.size) :
    (addSlice a s b).val i = a.val i + b.val (i - s) := by
  simp [addSlice, h1, h2]

theorem addSlice_val_out (a : Arr) {s i : ℕ} (b : Arr) (h : ¬(s ≤ i ∧ i < s + b.size)) :
    (addSlice a s b).val i = a.val i := by
  simp only [addSlice]
  rw [if_neg h]

theorem le_amaxAux (a : Arr) {k n : ℕ} (h : k ≤ n) : a.val k ≤ amaxAux a n := by
  induction n with
  | zero => simp_all [amaxAux]
  | succ n ih =>
    rcases Nat.lt_or_ge k (n + 1) with hk | hk
    · exact le_trans (ih (Nat.lt_succ_iff.mp hk)) (le_max_left _ _)
    · have : k = n + 1 := le_antisymm h hk
      subst this
      exact le_max_right _ _

theorem amaxAux_le (a : Arr) {n : ℕ} {b : ℚ} (h : ∀ k, k ≤ n → a.val k ≤ b) :
    amaxAux a n ≤ b := by
  induction n with
  | zero => exact h 0 le_rfl
  | succ n ih =>
    exact max_le (ih fun k hk => h k (le_trans hk (Nat.le_succ n))) (h (n + 1) le_rfl)

theorem amaxAux_mem (a : Arr) (n : ℕ) : ∃ k, k ≤ n ∧ amaxAux a n = a.val k := by
  induction n with
  | zero => exact ⟨0, le_rfl, rfl⟩
  | succ n ih =>
    obtain ⟨k, hk, he⟩ := ih
    rcases max_cases (amaxAux a n) (a.val (n + 1)) with ⟨h1, _⟩ | ⟨h1, _⟩
    · exact ⟨k, le_trans hk (Nat.le_succ n), by rw [amaxAux, h1, he]⟩
    · exact ⟨n + 1, le_rfl, by rw [amaxAux, h1]⟩

theorem amax_le {a : Arr} {m : ℚ} (h : amax a = some m) {k : ℕ} (hk : k < a.size) :
    a.val k ≤ m := by
  unfold amax at h
  rw [if_neg (Nat.pos_iff_ne_zero.mp (Nat.zero_lt_of_lt hk))] at h
  cases h
  exact le_amaxAux a (Nat.le_sub_one_of_lt hk)

theorem amax_mem {a : Arr} {m : ℚ} (h : amax a = some m) :
    ∃ k, k < a.size ∧ a.val k = m := by
  unfold amax at h
  by_cases h0 : a.size = 0
  · rw [if_pos h0] at h
    cases h
  · rw [if_neg h0] at h
    cases h
    obtain ⟨k, hk, he⟩ := amaxAux_mem a (a.size - 1)
    exact ⟨k, Nat.lt_of_le_of_lt hk (Nat.sub_lt (Nat.pos_of_ne_zero h0) Nat.one_pos), he.symm⟩

theorem amax_eq_of {a : Arr} {b : ℚ} (h0 : a.size ≠ 0) (hub : ∀ k, a.val k ≤ b)
    (hmem : ∃ k, k < a.size ∧ a.val k = b) : amax a = some b := by
  unfold amax
  rw [if_neg h0]
  congr 1
  obtain ⟨k, hk, he⟩ := hmem
  exact le_antisymm (amaxAux_le a fun j _ => hub j)
    (he ▸ le_amaxAux a (Nat.le_sub_one_of_lt hk))

theorem amax_zerosA {n : ℕ} {m : ℚ} (h : amax (zerosA n) = some m) : m = 0 := by
  obtain ⟨k, _, he⟩ := amax_mem h
  exact he.symm

theorem get_envelope_default {d : ℚ} (hd : 0 ≤ d) :
    get_envelope d (1/100) (3/10) 16000 = some (envelopeArr d) := by
  have h160 : pyInt ((16000:ℚ) * (1/100)) = 160 := by norm_num [pyInt]
  have h4800 : pyInt ((16000:ℚ) * (3/10)) = 4800 := by norm_num [pyInt]
  have hS : 0 ≤ pyInt (16000 * min d 3) :=
    pyInt_nonneg (mul_nonneg (by norm_num) (le_min hd (by norm_num)))
  have ht : ((4800 : ℤ)).toNat = 4800 := rfl
  have ht2 : ((160 : ℤ)).toNat = 160 := rfl
  unfold get_envelope
  rw [h160, h4800]
  simp only
  rw [if_pos ⟨hS, by norm_num, by norm_num, by omega⟩, Int.toNat_add hS (by norm_num), ht, ht2]
  rfl

theorem get_envelope_default_some {d : ℚ} {e : Arr}
    (h : get_envelope d (1/100) (3/10) 16000 = some e) : e = envelopeArr d := by
  have h160 : pyInt ((16000:ℚ) * (1/100)) = 160 := by norm_num [pyInt]
  have h4800 : pyInt ((16000:ℚ) * (3/10)) = 4800 := by norm_num [pyInt]
  have ht : ((4800 : ℤ)).toNat = 4800 := rfl
  have ht2 : ((160 : ℤ)).toNat = 160 := rfl
  unfold get_envelope at h
  rw [h160, h4800] at h
  simp only at h
  by_cases hg : 0 ≤ pyInt (16000 * (d ⊓ 3)) ∧ 0 ≤ (160:ℤ) ∧ 0 ≤ (4800:ℤ) ∧
      (160:ℤ) ≤ pyInt (16000 * (d ⊓ 3)) + 4800
  · rw [if_pos hg, Int.toNat_add hg.1 (by norm_num), ht, ht2] at h
    exact (Option.some_inj.mp h).symm
  · rw [if_neg hg] at h
    cases h

theorem envelopeArr_size (d : ℚ) : (envelopeArr d).size = sustainSamples d + 4800 := rfl

theorem envelopeArr_val_release {d : ℚ} {k : ℕ} (hk : k < 4800) :
    (envelopeArr d).val (sustainSamples d + k) = 1 - k / 4799 := by
  unfold envelopeArr
  rw [setSlice_val_in _ _ (Nat.le_add_right _ _) (by simpa [linspaceA] using hk)]
  simp only [Nat.add_sub_cancel_left, linspaceA, linspaceV]
  norm_num
  ring

theorem envelopeArr_val_attack {d : ℚ} {k : ℕ} (hkS : k < sustainSamples d) (hk : k < 160) :
    (envelopeArr d).val k = k / 159 := by
  unfold envelopeArr
  rw [setSlice_val_out _ _ (fun hC => absurd hkS (not_lt.mpr hC.1))]
  rw [setSlice_val_in _ _ (Nat.zero_le k) (by simpa [linspaceA] using hk)]
  simp only [Nat.sub_zero, linspaceA, linspaceV]
  norm_num

theorem envelopeArr_val_mid {d : ℚ} {k : ℕ} (h1 : 160 ≤ k) (h2 : k < sustainSamples d) :
    (envelopeArr d).val k = 1 := by
  unfold envelopeArr
  rw [setSlice_val_out _ _ (fun hC => absurd h2 (not_lt.mpr hC.1))]
  rw [setSlice_val_out _ _ (fun hC => absurd hC.2 (by simp [linspaceA]; omega))]
  rfl

theorem envelopeArr_val_le_one (d : ℚ) (k : ℕ) : (envelopeArr d).val k ≤ 1 := by
  unfold envelopeArr
  by_cases hrel : sustainSamples d ≤ k ∧ k < sustainSamples d + (linspaceA 1 0 4800).size
  · rw [setSlice_val_in _ _ hrel.1 hrel.2]
    simp only [linspaceA, linspaceV]
    have hx : (0:ℚ) ≤ ((k - sustainSamples d : ℕ) : ℚ) := Nat.cast_nonneg _
    have hdiv : (0:ℚ) ≤ ((k - sustainSamples d : ℕ) : ℚ) / 4799 := by positivity
    norm_num
    linarith
  · rw [setSlice_val_out _ _ hrel]
    by_cases hatt : 0 ≤ k ∧ k < 0 + (linspaceA 0 1 160).size
    · rw [setSlice_val_in _ _ hatt.1 hatt.2]
      simp only [Nat.sub_zero, linspaceA, linspaceV]
      have hk : (k:ℚ) ≤ 159 := by
        have : k ≤ 159 := by
          have := hatt.2
          simp [linspaceA] at this
          omega
        exact_mod_cast this
      norm_num
      rw [div_le_one (by norm_num)]
      exact hk
    · rw [setSlice_val_out _ _ hatt]
      exact le_refl 1

theorem envelopeArr_val_nonneg (d : ℚ) (k : ℕ) : 0 ≤ (envelopeArr d).val k := by
  unfold envelopeArr
  by_cases hrel : sustainSamples d ≤ k ∧ k < sustainSamples d + (linspaceA 1 0 4800).size
  · rw [setSlice_val_in _ _ hrel.1 hrel.2]
    simp only [linspaceA, linspaceV]
    have hk : ((k - sustainSamples d : ℕ) : ℚ) ≤ 4799 := by
      have : k - sustainSamples d ≤ 4799 := by
        have := hrel.2
        simp [linspaceA] at this
        omega
      exact_mod_cast this
    have hdiv : ((k - sustainSamples d : ℕ) : ℚ) / 4799 ≤ 1 := by
      rw [div_le_one (by norm_num)]
      linarith
    norm_num
    linarith
  · rw [setSlice_val_out _ _ hrel]
    by_cases hatt : 0 ≤ k ∧ k < 0 + (linspaceA 0 1 160).size
    · rw [setSlice_val_in _ _ hatt.1 hatt.2]
      simp only [Nat.sub_zero, linspaceA, linspaceV]
      positivity
    · rw [setSlice_val_out _ _ hatt]
      norm_num [onesA]

theorem envelopeArr_val_last (d : ℚ) :
    (envelopeArr d).val (sustainSamples d + 4800 - 1) = 0 := by
  have he : sustainSamples d + 4800 - 1 = sustainSamples d + 4799 := by omega
  rw [he, envelopeArr_val_release (by norm_num)]
  norm_num

theorem optBind_some {α β : Type} (a : α) (f : α → Option β) : (some a >>= f) = f a := rfl

theorem optBind_none {α β : Type} (f : α → Option β) : ((none : Option α) >>= f) = none := rfl

theorem processNote_some {row : Arr} {ts te v : ℚ} {an : Arr}
    (h : processNote row ts te v = some an) :
    ∃ e m, get_envelope (te - ts) (1/100) (3/10) 16000 = some e ∧
      e.size ≤ row.size ∧
      amax ⟨e.size, fun k => row.val k * e.val k⟩ = some m ∧ m ≠ 0 ∧
      an = ⟨e.size, fun k => row.val k * e.val k / m * (v / 127)⟩ := by
  unfold processNote noteAudio at h
  cases hE : get_envelope (te - ts) (1/100) (3/10) 16000 with
  | none => rw [hE, optBind_none] at h; exact Option.noConfusion h
  | some e =>
    rw [hE, optBind_some] at h
    by_cases hsz : e.size ≤ row.size
    · rw [if_pos hsz, optBind_some] at h
      cases hm : amax ⟨e.size, fun k => row.val k * e.val k⟩ with
      | none => rw [hm, optBind_none] at h; exact Option.noConfusion h
      | some m =>
        rw [hm, optBind_some] at h
        by_cases hm0 : m = 0
        · rw [if_pos hm0] at h; exact Option.noConfusion h
        · rw [if_neg hm0] at h
          exact ⟨e, m, rfl, hsz, hm, hm0, (Option.some_inj.mp h).symm⟩
    · rw [if_neg hsz, optBind_none] at h; exact Option.noConfusion h

theorem processNote_eq {row : Arr} {ts te v : ℚ} {e : Arr} {m : ℚ}
    (hE : get_envelope (te - ts) (1/100) (3/10) 16000 = some e)
    (hsz : e.size ≤ row.size)
    (hm : amax ⟨e.size, fun k => row.val k * e.val k⟩ = some m) (hm0 : m ≠ 0) :
    processNote row ts te v = some ⟨e.size, fun k => row.val k * e.val k / m * (v / 127)⟩ := by
  unfold processNote noteAudio
  rw [hE, optBind_some, if_pos hsz, optBind_some, hm, optBind_some, if_neg hm0]

theorem overlayNote_some {clip row : Arr} {ts te v : ℚ} {sr : ℕ} {c : Arr}
    (h : overlayNote clip row ts te v sr = some c) :
    ∃ an, processNote row ts te v = some an ∧ 0 ≤ pyInt (ts * sr) ∧
      (pyInt (ts * sr)).toNat + an.size ≤ clip.size ∧
      c = addSlice clip (pyInt (ts * sr)).toNat an := by
  unfold overlayNote at h
  cases hP : processNote row ts te v with
  | none => rw [hP, optBind_none] at h; exact Option.noConfusion h
  | some an =>
    rw [hP, optBind_some] at h
    simp only at h
    by_cases hg : 0 ≤ pyInt (ts * sr) ∧ (pyInt (ts * sr)).toNat + an.size ≤ clip.size
    · rw [if_pos hg] at h
      exact ⟨an, rfl, hg.1, hg.2, (Option.some_inj.mp h).symm⟩
    · rw [if_neg hg] at h; exact Option.noConfusion h

theorem overlayNote_eq {clip row : Arr} {ts te v : ℚ} {sr : ℕ} {an : Arr}
    (hP : processNote row ts te v = some an) (h1 : 0 ≤ pyInt (ts * sr))
    (h2 : (pyInt (ts * sr)).toNat + an.size ≤ clip.size) :
    overlayNote clip row ts te v sr = some (addSlice clip (pyInt (ts * sr)).toNat an) := by
  unfold overlayNote
  rw [hP, optBind_some]
  simp only
  rw [if_pos ⟨h1, h2⟩]

theorem overlayNote_size {clip row : Arr} {ts te v : ℚ} {sr : ℕ} {c : Arr}
    (h : overlayNote clip row ts te v sr = some c) : c.size = clip.size := by
  obtain ⟨an, _, _, _, hc⟩ := overlayNote_some h
  rw [hc, addSlice_size]

theorem overlayLoop_nil (sr : ℕ) (clip : Arr) : overlayLoop sr clip [] = some clip := rfl

theorem overlayLoop_cons (sr : ℕ) (clip : Arr) (ts te v : ℚ) (row : Arr)
    (rest : List (ℚ × ℚ × ℚ × Arr)) :
    overlayLoop sr clip ((ts, te, v, row) :: rest) =
      (overlayNote clip row ts te v sr) >>= fun c => overlayLoop sr c rest := rfl

theorem overlayLoop_size {sr : ℕ} :
    ∀ {l : List (ℚ × ℚ × ℚ × Arr)} {clip c : Arr},
      overlayLoop sr clip l = some c → c.size = clip.size := by
  intro l
  induction l with
  | nil =>
    intro clip c h
    rw [overlayLoop_nil] at h
    rw [Option.some_inj.mp h]
  | cons n rest ih =>
    intro clip c h
    obtain ⟨ts, te, v, row⟩ := n
    rw [overlayLoop_cons] at h
    cases hO : overlayNote clip row ts te v sr with
    | none => rw [hO, optBind_none] at h; exact Option.noConfusion h
    | some c1 =>
      rw [hO, optBind_some] at h
      rw [ih h, overlayNote_size hO]

theorem combine_notes_some {rows : List Arr} {ts es vs : List ℚ} {sr : ℕ} {clip : Arr}
    (h : combine_notes rows ts es vs sr = some clip) :
    ∃ tmax pre M, npMax es = some tmax ∧ 0 ≤ pyInt (tmax + 3) ∧
      overlayLoop sr (zerosA (clip_samples tmax sr)) (zipNotes ts es vs rows) = some pre ∧
      amax pre = some M ∧ M ≠ 0 ∧
      clip = ⟨pre.size, fun i => pre.val i / M / 2⟩ := by
  unfold combine_notes at h
  cases hT : npMax es with
  | none => rw [hT, optBind_none] at h; exact Option.noConfusion h
  | some tmax =>
    rw [hT, optBind_some] at h
    by_cases h3 : 0 ≤ pyInt (tmax + 3)
    · rw [if_pos h3] at h
      cases hL : overlayLoop sr (zerosA (clip_samples tmax sr)) (zipNotes ts es vs rows) with
      | none => rw [hL, optBind_none] at h; exact Option.noConfusion h
      | some pre =>
        rw [hL, optBind_some] at h
        cases hM : amax pre with
        | none => rw [hM, optBind_none] at h; exact Option.noConfusion h
        | some M =>
          rw [hM, optBind_some] at h
          by_cases hM0 : M = 0
          · rw [if_pos hM0] at h; exact Option.noConfusion h
          · rw [if_neg hM0] at h
            exact ⟨tmax, pre, M, rfl, h3, hL, hM, hM0, (Option.some_inj.mp h).symm⟩
    · rw [if_neg h3] at h; exact Option.noConfusion h

theorem combine_notes_eq {rows : List Arr} {ts es vs : List ℚ} {sr : ℕ} {tmax M : ℚ} {pre : Arr}
    (hT : npMax es = some tmax) (h3 : 0 ≤ pyInt (tmax + 3))
    (hL : overlayLoop sr (zerosA (clip_samples tmax sr)) (zipNotes ts es vs rows) = some pre)
    (hM : amax pre = some M) (hM0 : M ≠ 0) :
    combine_notes rows ts es vs sr = some ⟨pre.size, fun i => pre.val i / M / 2⟩ := by
  unfold combine_notes
  rw [hT, optBind_some, if_pos h3, hL, optBind_some, hM, optBind_some, if_neg hM0]

theorem overlayNoteRound_eq {clip row : Arr} {ts te v : ℚ} {sr : ℕ} {an : Arr}
    (hP : processNote row ts te v = some an) (h1 : 0 ≤ pyRound (ts * sr))
    (h2 : (pyRound (ts * sr)).toNat + an.size ≤ clip.size) :
    overlayNoteRound clip row ts te v sr = some (addSlice clip (pyRound (ts * sr)).toNat an) := by
  unfold overlayNoteRound
  rw [hP, optBind_some]
  simp only
  rw [if_pos ⟨h1, h2⟩]

theorem overlayLoopRound_cons (sr : ℕ) (clip : Arr) (ts te v : ℚ) (row : Arr)
    (rest : List (ℚ × ℚ × ℚ × Arr)) :
    overlayLoopRound sr clip ((ts, te, v, row) :: rest) =
      (overlayNoteRound clip row ts te v sr) >>= fun c => overlayLoopRound sr c rest := rfl

theorem combine_notes_round_eq {rows : List Arr} {ts es vs : List ℚ} {sr : ℕ} {tmax M : ℚ}
    {pre : Arr}
    (hT : npMax es = some tmax) (h3 : 0 ≤ pyInt (tmax + 3))
    (hL : overlayLoopRound sr (zerosA (clip_samples tmax sr)) (zipNotes ts es vs rows) = some pre)
    (hM : amax pre = some M) (hM0 : M ≠ 0) :
    combine_notes_round rows ts es vs sr = some ⟨pre.size, fun i => pre.val i / M / 2⟩ := by
  unfold combine_notes_round
  rw [hT, optBind_some, if_pos h3, hL, optBind_some, hM, optBind_some, if_neg hM0]

theorem npMax_single (x : ℚ) : npMax [x] = some x := rfl

theorem zipNotes_single (s e v : ℚ) (r : Arr) :
    zipNotes [s] [e] [v] [r] = [(s, e, v, r)] := rfl

theorem addSlice_zeros_val_le {n o : ℕ} {b : Arr} {u : ℚ}
    (hb : ∀ k, b.val k ≤ u) (hu : 0 ≤ u) (i : ℕ) :
    (addSlice (zerosA n) o b).val i ≤ u := by
  by_cases hin : o ≤ i ∧ i < o + b.size
  · rw [addSlice_val_in _ _ hin.1 hin.2]
    simpa [zerosA] using hb (i - o)
  · rw [addSlice_val_out _ _ hin]
    simpa [zerosA] using hu

theorem addSlice_zeros_val_in {n o : ℕ} {b : Arr} {i : ℕ} (h1 : o ≤ i) (h2 : i < o + b.size) :
    (addSlice (zerosA n) o b).val i = b.val (i - o) := by
  rw [addSlice_val_in _ _ h1 h2]
  simp [zerosA]

set_option maxRecDepth 100000 in
theorem combineA : ∃ c, combine_notes [onesA 44800] [0] [5/2] [127] 16000 = some c ∧
    c.size = 80000 := by
  have hSA : sustainSamples ((5:ℚ)/2 - 0) = 40000 := by
    unfold sustainSamples
    norm_num [pyInt, min_def]
    rfl
  have hCS : clip_samples (5/2) 16000 = 80000 := by
    unfold clip_samples
    norm_num [pyInt]
    rfl
  have hoff : (pyInt ((0:ℚ) * ((16000:ℕ):ℚ))).toNat = 0 := by norm_num [pyInt]
  have hE := @get_envelope_default ((5:ℚ)/2 - 0) (by norm_num)
  have hsz : (envelopeArr ((5:ℚ)/2 - 0)).size ≤ (onesA 44800).size := by
    rw [envelopeArr_size, hSA]
    show 40000 + 4800 ≤ 44800
    norm_num
  have hm : amax ⟨(envelopeArr ((5:ℚ)/2 - 0)).size,
      fun k => (onesA 44800).val k * (envelopeArr ((5:ℚ)/2 - 0)).val k⟩ = some 1 := by
    apply amax_eq_of
    · rw [envelopeArr_size, hSA]
      norm_num
    · intro k
      simpa [onesA] using envelopeArr_val_le_one ((5:ℚ)/2 - 0) k
    · refine ⟨200, ?_, ?_⟩
      · show 200 < (envelopeArr ((5:ℚ)/2 - 0)).size
        rw [envelopeArr_size, hSA]
        norm_num
      · show (onesA 44800).val 200 * (envelopeArr ((5:ℚ)/2 - 0)).val 200 = 1
        rw [envelopeArr_val_mid (by norm_num) (by rw [hSA]; norm_num)]
        simp [onesA]
  have hP := @processNote_eq (onesA 44800) 0 (5/2) 127 _ _
    hE hsz hm one_ne_zero
  have h1 : 0 ≤ pyInt ((0:ℚ) * ((16000:ℕ):ℚ)) := by norm_num [pyInt]
  have h2 : (pyInt ((0:ℚ) * ((16000:ℕ):ℚ))).toNat +
      (⟨(envelopeArr ((5:ℚ)/2 - 0)).size,
        fun k => (onesA 44800).val k * (envelopeArr ((5:ℚ)/2 - 0)).val k / 1 * (127/127)⟩ :
          Arr).size ≤ (zerosA (clip_samples (5/2) 16000)).size := by
    show (pyInt ((0:ℚ) * ((16000:ℕ):ℚ))).toNat + (envelopeArr ((5:ℚ)/2 - 0)).size ≤
      clip_samples (5/2) 16000
    rw [hoff, envelopeArr_size, hSA, hCS]
    norm_num
  have hO := @overlayNote_eq (zerosA (clip_samples (5/2) 16000)) _ _ _ _ 16000 _ hP h1 h2
  rw [hoff] at hO
  have hL : overlayLoop 16000 (zerosA (clip_samples (5/2) 16000))
      (zipNotes [0] [5/2] [127] [onesA 44800]) =
      some (addSlice (zerosA (clip_samples (5/2) 16000)) 0
        ⟨(envelopeArr ((5:ℚ)/2 - 0)).size,
          fun k => (onesA 44800).val k * (envelopeArr ((5:ℚ)/2 - 0)).val k / 1 * (127/127)⟩) := by
    rw [zipNotes_single, overlayLoop_cons, hO, optBind_some, overlayLoop_nil]
  have hvals : ∀ k, (⟨(envelopeArr ((5:ℚ)/2 - 0)).size,
      fun k => (onesA 44800).val k * (envelopeArr ((5:ℚ)/2 - 0)).val k / 1 * (127/127)⟩ :
        Arr).val k = (envelopeArr ((5:ℚ)/2 - 0)).val k := by
    intro k
    show (onesA 44800).val k * (envelopeArr ((5:ℚ)/2 - 0)).val k / 1 * (127/127) = _
    norm_num [onesA]
  have hM : amax (addSlice (zerosA (clip_samples (5/2) 16000)) 0
      ⟨(envelopeArr ((5:ℚ)/2 - 0)).size,
        fun k => (onesA 44800).val k * (envelopeArr ((5:ℚ)/2 - 0)).val k / 1 * (127/127)⟩) =
      some 1 := by
    apply amax_eq_of
    · rw [addSlice_size]
      show clip_samples (5/2) 16000 ≠ 0
      rw [hCS]
      norm_num
    · intro i
      apply addSlice_zeros_val_le _ (by norm_num)
      intro k
      rw [hvals k]
      exact envelopeArr_val_le_one _ k
    · refine ⟨200, ?_, ?_⟩
      · rw [addSlice_size]
        show 200 < clip_samples (5/2) 16000
        rw [hCS]
        norm_num
      · rw [addSlice_zeros_val_in (Nat.zero_le _) (by rw [envelopeArr_size, hSA]; norm_num),
          Nat.sub_zero, hvals, envelopeArr_val_mid (by norm_num) (by rw [hSA]; norm_num)]
  have h3 : 0 ≤ pyInt ((5:ℚ)/2 + 3) := by norm_num [pyInt]
  have hfin := @combine_notes_eq [onesA 44800] [0] _ [127] _ _ _ _
    (npMax_single (5/2)) h3 hL hM one_ne_zero
  refine ⟨_, hfin, ?_⟩
  show (addSlice (zerosA (clip_samples (5/2) 16000)) 0
      ⟨(envelopeArr ((5:ℚ)/2 - 0)).size,
        fun k => (onesA 44800).val k * (envelopeArr ((5:ℚ)/2 - 0)).val k / 1 * (127/127)⟩).size
      = 80000
  rw [addSlice_size]
  show clip_samples (5/2) 16000 = 80000
  exact hCS

theorem envelopeArr_val_S0 {d : ℚ} (hS : sustainSamples d = 0) {k : ℕ} (hk : k < 4800) :
    (envelopeArr d).val k = 1 - k / 4799 := by
  have h := @envelopeArr_val_release d _ hk
  rwa [hS, Nat.zero_add] at h

theorem combineB : ∃ c, combine_notes [onesA 4800] [1/10000] [1/10000] [127] 16000 = some c ∧
    c.size = 48000 ∧ c.val 2 = 2399/4799 := by
  have hSB : sustainSamples ((1:ℚ)/10000 - 1/10000) = 0 := by
    unfold sustainSamples
    norm_num [pyInt, min_def]
  have hCS : clip_samples (1/10000) 16000 = 48000 := by
    unfold clip_samples
    norm_num [pyInt]
    rfl
  have hoff : (pyInt (((1:ℚ)/10000) * ((16000:ℕ):ℚ))).toNat = 1 := by
    norm_num [pyInt]
  have hv : ∀ k, k < 4800 → (envelopeArr ((1:ℚ)/10000 - 1/10000)).val k = 1 - k / 4799 :=
    fun k hk => envelopeArr_val_S0 hSB hk
  have hE := @get_envelope_default ((1:ℚ)/10000 - 1/10000) (by norm_num)
  have hsz : (envelopeArr ((1:ℚ)/10000 - 1/10000)).size ≤ (onesA 4800).size := by
    rw [envelopeArr_size, hSB]
    show 0 + 4800 ≤ 4800
    norm_num
  have hm : amax ⟨(envelopeArr ((1:ℚ)/10000 - 1/10000)).size,
      fun k => (onesA 4800).val k * (envelopeArr ((1:ℚ)/10000 - 1/10000)).val k⟩ = some 1 := by
    apply amax_eq_of
    · rw [envelopeArr_size, hSB]
      norm_num
    · intro k
      simpa [onesA] using envelopeArr_val_le_one ((1:ℚ)/10000 - 1/10000) k
    · refine ⟨0, ?_, ?_⟩
      · show 0 < (envelopeArr ((1:ℚ)/10000 - 1/10000)).size
        rw [envelopeArr_size, hSB]
        norm_num
      · show (onesA 4800).val 0 * (envelopeArr ((1:ℚ)/10000 - 1/10000)).val 0 = 1
        rw [hv 0 (by norm_num)]
        norm_num [onesA]
  have hP := @processNote_eq (onesA 4800) (1/10000) (1/10000) 127 _ _
    hE hsz hm one_ne_zero
  have h1 : 0 ≤ pyInt (((1:ℚ)/10000) * ((16000:ℕ):ℚ)) := by norm_num [pyInt]
  have h2 : (pyInt (((1:ℚ)/10000) * ((16000:ℕ):ℚ))).toNat +
      (⟨(envelopeArr ((1:ℚ)/10000 - 1/10000)).size,
        fun k => (onesA 4800).val k * (envelopeArr ((1:ℚ)/10000 - 1/10000)).val k / 1 *
          (127/127)⟩ : Arr).size ≤ (zerosA (clip_samples (1/10000) 16000)).size := by
    show (pyInt (((1:ℚ)/10000) * ((16000:ℕ):ℚ))).toNat +
      (envelopeArr ((1:ℚ)/10000 - 1/10000)).size ≤ clip_samples (1/10000) 16000
    rw [hoff, envelopeArr_size, hSB, hCS]
    norm_num
  have hO := @overlayNote_eq (zerosA (clip_samples (1/10000) 16000)) _ _ _ _ 16000 _
    hP h1 h2
  rw [hoff] at hO
  have hL : overlayLoop 16000 (zerosA (clip_samples (1/10000) 16000))
      (zipNotes [1/10000] [1/10000] [127] [onesA 4800]) =
      some (addSlice (zerosA (clip_samples (1/10000) 16000)) 1
        ⟨(envelopeArr ((1:ℚ)/10000 - 1/10000)).size,
          fun k => (onesA 4800).val k * (envelopeArr ((1:ℚ)/10000 - 1/10000)).val k / 1 *
            (127/127)⟩) := by
    rw [zipNotes_single, overlayLoop_cons, hO, optBind_some, overlayLoop_nil]
  have hvals : ∀ k, (⟨(envelopeArr ((1:ℚ)/10000 - 1/10000)).size,
      fun k => (onesA 4800).val k * (envelopeArr ((1:ℚ)/10000 - 1/10000)).val k / 1 *
        (127/127)⟩ : Arr).val k = (envelopeArr ((1:ℚ)/10000 - 1/10000)).val k := by
    intro k
    show (onesA 4800).val k * (envelopeArr ((1:ℚ)/10000 - 1/10000)).val k / 1 * (127/127) = _
    norm_num [onesA]
  have hM : amax (addSlice (zerosA (clip_samples (1/10000) 16000)) 1
      ⟨(envelopeArr ((1:ℚ)/10000 - 1/10000)).size,
        fun k => (onesA 4800).val k * (envelopeArr ((1:ℚ)/10000 - 1/10000)).val k / 1 *
          (127/127)⟩) = some 1 := by
    apply amax_eq_of
    · rw [addSlice_size]
      show clip_samples (1/10000) 16000 ≠ 0
      rw [hCS]
      norm_num
    · intro i
      apply addSlice_zeros_val_le _ (by norm_num)
      intro k
      rw [hvals k]
      exact envelopeArr_val_le_one _ k
    · refine ⟨1, ?_, ?_⟩
      · rw [addSlice_size]
        show 1 < clip_samples (1/10000) 16000
        rw [hCS]
        norm_num
      · rw [addSlice_zeros_val_in (le_refl 1) (by rw [envelopeArr_size, hSB]; norm_num),
          Nat.sub_self, hvals, hv 0 (by norm_num)]
        norm_num
  have h3 : 0 ≤ pyInt ((1:ℚ)/10000 + 3) := by norm_num [pyInt]
  have hfin := @combine_notes_eq [onesA 4800] [1/10000] _ [127] _ _ _ _
    (npMax_single (1/10000)) h3 hL hM one_ne_zero
  refine ⟨_, hfin, ?_, ?_⟩
  · show (addSlice (zerosA (clip_samples (1/10000) 16000)) 1
      ⟨(envelopeArr ((1:ℚ)/10000 - 1/10000)).size,
        fun k => (onesA 4800).val k * (envelopeArr ((1:ℚ)/10000 - 1/10000)).val k / 1 *
          (127/127)⟩).size = 48000
    rw [addSlice_size]
    exact hCS
  · show (addSlice (zerosA (clip_samples (1/10000) 16000)) 1
      ⟨(envelopeArr ((1:ℚ)/10000 - 1/10000)).size,
        fun k => (onesA 4800).val k * (envelopeArr ((1:ℚ)/10000 - 1/10000)).val k / 1 *
          (127/127)⟩).val 2 / 1 / 2 = 2399/4799
    rw [addSlice_zeros_val_in (by norm_num) (by rw [envelopeArr_size, hSB]; norm_num),
      hvals, hv 1 (by norm_num)]
    norm_num

theorem overlayLoopRound_nil (sr : ℕ) (clip : Arr) : overlayLoopRound sr clip [] = some clip := rfl

theorem combineBround : ∃ c,
    combine_notes_round [onesA 4800] [1/10000] [1/10000] [127] 16000 = some c ∧
    c.val 2 = 1/2 := by
  have hSB : sustainSamples ((1:ℚ)/10000 - 1/10000) = 0 := by
    unfold sustainSamples
    norm_num [pyInt, min_def]
  have hCS : clip_samples (1/10000) 16000 = 48000 := by
    unfold clip_samples
    norm_num [pyInt]
    rfl
  have hoff : (pyRound (((1:ℚ)/10000) * ((16000:ℕ):ℚ))).toNat = 2 := by
    norm_num [pyRound, round_eq]
    rfl
  have hv : ∀ k, k < 4800 → (envelopeArr ((1:ℚ)/10000 - 1/10000)).val k = 1 - k / 4799 :=
    fun k hk => envelopeArr_val_S0 hSB hk
  have hE := @get_envelope_default ((1:ℚ)/10000 - 1/10000) (by norm_num)
  have hsz : (envelopeArr ((1:ℚ)/10000 - 1/10000)).size ≤ (onesA 4800).size := by
    rw [envelopeArr_size, hSB]
    show 0 + 4800 ≤ 4800
    norm_num
  have hm : amax ⟨(envelopeArr ((1:ℚ)/10000 - 1/10000)).size,
      fun k => (onesA 4800).val k * (envelopeArr ((1:ℚ)/10000 - 1/10000)).val k⟩ = some 1 := by
    apply amax_eq_of
    · rw [envelopeArr_size, hSB]
      norm_num
    · intro k
      simpa [onesA] using envelopeArr_val_le_one ((1:ℚ)/10000 - 1/10000) k
    · refine ⟨0, ?_, ?_⟩
      · show 0 < (envelopeArr ((1:ℚ)/10000 - 1/10000)).size
        rw [envelopeArr_size, hSB]
        norm_num
      · show (onesA 4800).val 0 * (envelopeArr ((1:ℚ)/10000 - 1/10000)).val 0 = 1
        rw [hv 0 (by norm_num)]
        norm_num [onesA]
  have hP := @processNote_eq (onesA 4800) (1/10000) (1/10000) 127 _ _
    hE hsz hm one_ne_zero
  have h1 : 0 ≤ pyRound (((1:ℚ)/10000) * ((16000:ℕ):ℚ)) := by norm_num [pyRound, round_eq]
  have h2 : (pyRound (((1:ℚ)/10000) * ((16000:ℕ):ℚ))).toNat +
      (⟨(envelopeArr ((1:ℚ)/10000 - 1/10000)).size,
        fun k => (onesA 4800).val k * (envelopeArr ((1:ℚ)/10000 - 1/10000)).val k / 1 *
          (127/127)⟩ : Arr).size ≤ (zerosA (clip_samples (1/10000) 16000)).size := by
    show (pyRound (((1:ℚ)/10000) * ((16000:ℕ):ℚ))).toNat +
      (envelopeArr ((1:ℚ)/10000 - 1/10000)).size ≤ clip_samples (1/10000) 16000
    rw [hoff, envelopeArr_size, hSB, hCS]
    norm_num
  have hO := @overlayNoteRound_eq (zerosA (clip_samples (1/10000) 16000)) _ _ _ _ 16000 _
    hP h1 h2
  rw [hoff] at hO
  have hL : overlayLoopRound 16000 (zerosA (clip_samples (1/10000) 16000))
      (zipNotes [1/10000] [1/10000] [127] [onesA 4800]) =
      some (addSlice (zerosA (clip_samples (1/10000) 16000)) 2
        ⟨(envelopeArr ((1:ℚ)/10000 - 1/10000)).size,
          fun k => (onesA 4800).val k * (envelopeArr ((1:ℚ)/10000 - 1/10000)).val k / 1 *
            (127/127)⟩) := by
    rw [zipNotes_single, overlayLoopRound_cons, hO, optBind_some, overlayLoopRound_nil]
  have hvals : ∀ k, (⟨(envelopeArr ((1:ℚ)/10000 - 1/10000)).size,
      fun k => (onesA 4800).val k * (envelopeArr ((1:ℚ)/10000 - 1/10000)).val k / 1 *
        (127/127)⟩ : Arr).val k = (envelopeArr ((1:ℚ)/10000 - 1/10000)).val k := by
    intro k
    show (onesA 4800).val k * (envelopeArr ((1:ℚ)/10000 - 1/10000)).val k / 1 * (127/127) = _
    norm_num [onesA]
  have hM : amax (addSlice (zerosA (clip_samples (1/10000) 16000)) 2
      ⟨(envelopeArr ((1:ℚ)/10000 - 1/10000)).size,
        fun k => (onesA 4800).val k * (envelopeArr ((1:ℚ)/10000 - 1/10000)).val k / 1 *
          (127/127)⟩) = some 1 := by
    apply amax_eq_of
    · rw [addSlice_size]
      show clip_samples (1/10000) 16000 ≠ 0
      rw [hCS]
      norm_num
    · intro i
      apply addSlice_zeros_val_le _ (by norm_num)
      intro k
      rw [hvals k]
      exact envelopeArr_val_le_one _ k
    · refine ⟨2, ?_, ?_⟩
      · rw [addSlice_size]
        show 2 < clip_samples (1/10000) 16000
        rw [hCS]
        norm_num
      · rw [addSlice_zeros_val_in (le_refl 2) (by rw [envelopeArr_size, hSB]; norm_num),
          Nat.sub_self, hvals, hv 0 (by norm_num)]
        norm_num
  have h3 : 0 ≤ pyInt ((1:ℚ)/10000 + 3) := by norm_num [pyInt]
  have hfin := @combine_notes_round_eq [onesA 4800] [1/10000] _ [127] _ _ _ _
    (npMax_single (1/10000)) h3 hL hM one_ne_zero
  refine ⟨_, hfin, ?_⟩
  show (addSlice (zerosA (clip_samples (1/10000) 16000)) 2
      ⟨(envelopeArr ((1:ℚ)/10000 - 1/10000)).size,
        fun k => (onesA 4800).val k * (envelopeArr ((1:ℚ)/10000 - 1/10000)).val k / 1 *
          (127/127)⟩).val 2 / 1 / 2 = 1/2
  rw [addSlice_zeros_val_in (le_refl 2) (by rw [envelopeArr_size, hSB]; norm_num),
    Nat.sub_self, hvals, hv 0 (by norm_num)]
  norm_num

theorem rowC5_mul_le (d : ℚ) (k : ℕ) : rowC5.val k * (envelopeArr d).val k ≤ 1 := by
  by_cases h0 : k = 0
  · subst h0
    have h := envelopeArr_val_le_one d 0
    have h2 := envelopeArr_val_nonneg d 0
    show (if 0 = 0 then (1:ℚ) else if 0 = 1 then -4 else 0) * (envelopeArr d).val 0 ≤ 1
    norm_num
    exact h
  · by_cases h1 : k = 1
    · subst h1
      have h2 := envelopeArr_val_nonneg d 1
      show (if 1 = 0 then (1:ℚ) else if 1 = 1 then -4 else 0) * (envelopeArr d).val 1 ≤ 1
      norm_num
      nlinarith
    · show (if k = 0 then (1:ℚ) else if k = 1 then -4 else 0) * (envelopeArr d).val k ≤ 1
      rw [if_neg h0, if_neg h1]
      norm_num

theorem combineE : ∃ c, combine_notes [rowC5] [0] [0] [127] 16000 = some c ∧
    c.size = 48000 ∧ c.val 1 = -9596/4799 := by
  have hSE : sustainSamples ((0:ℚ) - 0) = 0 := by
    unfold sustainSamples
    norm_num [pyInt, min_def]
  have hCS : clip_samples 0 16000 = 48000 := by
    unfold clip_samples
    norm_num [pyInt]
    rfl
  have hoff : (pyInt ((0:ℚ) * ((16000:ℕ):ℚ))).toNat = 0 := by norm_num [pyInt]
  have hv : ∀ k, k < 4800 → (envelopeArr ((0:ℚ) - 0)).val k = 1 - k / 4799 :=
    fun k hk => envelopeArr_val_S0 hSE hk
  have hE := @get_envelope_default ((0:ℚ) - 0) (by norm_num)
  have hsz : (envelopeArr ((0:ℚ) - 0)).size ≤ rowC5.size := by
    rw [envelopeArr_size, hSE]
    show 0 + 4800 ≤ 4800
    norm_num
  have hmem0 : rowC5.val 0 * (envelopeArr ((0:ℚ) - 0)).val 0 = 1 := by
    show (if 0 = 0 then (1:ℚ) else if 0 = 1 then -4 else 0) * (envelopeArr ((0:ℚ) - 0)).val 0 = 1
    rw [if_pos rfl, hv 0 (by norm_num)]
    norm_num
  have hm : amax ⟨(envelopeArr ((0:ℚ) - 0)).size,
      fun k => rowC5.val k * (envelopeArr ((0:ℚ) - 0)).val k⟩ = some 1 := by
    apply amax_eq_of
    · rw [envelopeArr_size, hSE]
      norm_num
    · intro k
      exact rowC5_mul_le _ k
    · refine ⟨0, ?_, ?_⟩
      · show 0 < (envelopeArr ((0:ℚ) - 0)).size
        rw [envelopeArr_size, hSE]
        norm_num
      · exact hmem0
  have hP := @processNote_eq rowC5 0 0 127 _ _
    hE hsz hm one_ne_zero
  have h1 : 0 ≤ pyInt ((0:ℚ) * ((16000:ℕ):ℚ)) := by norm_num [pyInt]
  have h2 : (pyInt ((0:ℚ) * ((16000:ℕ):ℚ))).toNat +
      (⟨(envelopeArr ((0:ℚ) - 0)).size,
        fun k => rowC5.val k * (envelopeArr ((0:ℚ) - 0)).val k / 1 * (127/127)⟩ :
          Arr).size ≤ (zerosA (clip_samples 0 16000)).size := by
    show (pyInt ((0:ℚ) * ((16000:ℕ):ℚ))).toNat + (envelopeArr ((0:ℚ) - 0)).size ≤
      clip_samples 0 16000
    rw [hoff, envelopeArr_size, hSE, hCS]
    norm_num
  have hO := @overlayNote_eq (zerosA (clip_samples 0 16000)) _ _ _ _ 16000 _ hP h1 h2
  rw [hoff] at hO
  have hL : overlayLoop 16000 (zerosA (clip_samples 0 16000)) (zipNotes [0] [0] [127] [rowC5]) =
      some (addSlice (zerosA (clip_samples 0 16000)) 0
        ⟨(envelopeArr ((0:ℚ) - 0)).size,
          fun k => rowC5.val k * (envelopeArr ((0:ℚ) - 0)).val k / 1 * (127/127)⟩) := by
    rw [zipNotes_single, overlayLoop_cons, hO, optBind_some, overlayLoop_nil]
  have hvals : ∀ k, (⟨(envelopeArr ((0:ℚ) - 0)).size,
      fun k => rowC5.val k * (envelopeArr ((0:ℚ) - 0)).val k / 1 * (127/127)⟩ : Arr).val k =
      rowC5.val k * (envelopeArr ((0:ℚ) - 0)).val k := by
    intro k
    show rowC5.val k * (envelopeArr ((0:ℚ) - 0)).val k / 1 * (127/127) = _
    norm_num
  have hM : amax (addSlice (zerosA (clip_samples 0 16000)) 0
      ⟨(envelopeArr ((0:ℚ) - 0)).size,
        fun k => rowC5.val k * (envelopeArr ((0:ℚ) - 0)).val k / 1 * (127/127)⟩) = some 1 := by
    apply amax_eq_of
    · rw [addSlice_size]
      show clip_samples 0 16000 ≠ 0
      rw [hCS]
      norm_num
    · intro i
      apply addSlice_zeros_val_le _ (by norm_num)
      intro k
      rw [hvals k]
      exact rowC5_mul_le _ k
    · refine ⟨0, ?_, ?_⟩
      · rw [addSlice_size]
        show 0 < clip_samples 0 16000
        rw [hCS]
        norm_num
      · rw [addSlice_zeros_val_in (le_refl 0) (by rw [envelopeArr_size, hSE]; norm_num),
          Nat.sub_self, hvals]
        exact hmem0
  have h3 : 0 ≤ pyInt ((0:ℚ) + 3) := by norm_num [pyInt]
  have hfin := @combine_notes_eq [rowC5] [0] _ [127] _ _ _ _
    (npMax_single 0) h3 hL hM one_ne_zero
  refine ⟨_, hfin, ?_, ?_⟩
  · show (addSlice (zerosA (clip_samples 0 16000)) 0
      ⟨(envelopeArr ((0:ℚ) - 0)).size,
        fun k => rowC5.val k * (envelopeArr ((0:ℚ) - 0)).val k / 1 * (127/127)⟩).size = 48000
    rw [addSlice_size]
    exact hCS
  · show (addSlice (zerosA (clip_samples 0 16000)) 0
      ⟨(envelopeArr ((0:ℚ) - 0)).size,
        fun k => rowC5.val k * (envelopeArr ((0:ℚ) - 0)).val k / 1 * (127/127)⟩).val 1 / 1 / 2 =
      -9596/4799
    rw [addSlice_zeros_val_in (Nat.zero_le 1) (by rw [envelopeArr_size, hSE]; norm_num),
      Nat.sub_zero, hvals, hv 1 (by norm_num)]
    show (if 1 = 0 then (1:ℚ) else if 1 = 1 then -4 else 0) * (1 - 1/4799) / 1 / 2 = -9596/4799
    norm_num

theorem processNote_last {row : Arr} {ts te v : ℚ} {an : Arr}
    (h : processNote row ts te v = some an) :
    4800 ≤ an.size ∧ an.val (an.size - 1) = 0 := by
  obtain ⟨e, m, hE, hsz, hm, hm0, hAn⟩ := processNote_some h
  have he := get_envelope_default_some hE
  subst hAn
  constructor
  · show 4800 ≤ e.size
    rw [he, envelopeArr_size]
    omega
  · have hz : e.val (e.size - 1) = 0 := by
      rw [he, envelopeArr_size]
      exact envelopeArr_val_last _
    show row.val (e.size - 1) * e.val (e.size - 1) / m * (v / 127) = 0
    rw [hz, mul_zero, zero_div, zero_mul]

theorem padded_zerosA (n : ℕ) : padded (zerosA n) 0 :=
  ⟨Nat.zero_le n, fun _ _ _ => rfl, fun h => absurd h (lt_irrefl 0)⟩

theorem overlayNote_padded {clip row : Arr} {ts te v : ℚ} {sr : ℕ} {c : Arr} {F : ℕ}
    (h : overlayNote clip row ts te v sr = some c) (hp : padded clip F) :
    ∃ F2, F ≤ F2 ∧ 0 < F2 ∧ padded c F2 := by
  obtain ⟨an, hP, ho, hfit, hc⟩ := overlayNote_some h
  obtain ⟨hsz4800, hlast⟩ := processNote_last hP
  have hpa := hp.1
  have hpb := hp.2.1
  have hpc := hp.2.2
  refine ⟨max F ((pyInt (ts * sr)).toNat + an.size), le_max_left _ _, ?_, ?_, ?_, ?_⟩
  · exact lt_of_lt_of_le (by omega) (le_max_right _ _)
  · rw [hc, addSlice_size]
    exact max_le hpa hfit
  · intro i hi hisize
    rw [hc, addSlice_size] at hisize
    rw [hc, addSlice_val_out _ _ ?hout]
    · exact hpb i (le_trans (le_max_left _ _) hi) hisize
    case hout =>
      intro hC
      have h2 := le_trans (le_max_right _ _) hi
      omega
  · intro _
    rw [hc]
    rcases le_or_lt ((pyInt (ts * sr)).toNat + an.size) F with hEF | hFE
    · have hmax : max F ((pyInt (ts * sr)).toNat + an.size) = F := max_eq_left hEF
      rw [hmax]
      have hF0 : 0 < F := by omega
      by_cases hin : (pyInt (ts * sr)).toNat ≤ F - 1 ∧
          F - 1 < (pyInt (ts * sr)).toNat + an.size
      · rw [addSlice_val_in _ _ hin.1 hin.2]
        have hidx : F - 1 - (pyInt (ts * sr)).toNat = an.size - 1 := by omega
        rw [hidx, hlast, hpc hF0, add_zero]
      · rw [addSlice_val_out _ _ hin]
        exact hpc hF0
    · have hmax : max F ((pyInt (ts * sr)).toNat + an.size) =
          (pyInt (ts * sr)).toNat + an.size := max_eq_right (le_of_lt hFE)
      rw [hmax]
      have h1 : (pyInt (ts * sr)).toNat ≤ (pyInt (ts * sr)).toNat + an.size - 1 := by omega
      have h2 : (pyInt (ts * sr)).toNat + an.size - 1 <
          (pyInt (ts * sr)).toNat + an.size := by omega
      rw [addSlice_val_in _ _ h1 h2]
      have h3 : (pyInt (ts * sr)).toNat + an.size - 1 - (pyInt (ts * sr)).toNat =
          an.size - 1 := by omega
      rw [h3, hlast, add_zero]
      exact hpb _ (by omega) (by omega)

theorem overlayLoop_padded {sr : ℕ} :
    ∀ {l : List (ℚ × ℚ × ℚ × Arr)} {clip c : Arr} {F : ℕ},
      overlayLoop sr clip l = some c → padded clip F →
      ∃ F2, F ≤ F2 ∧ padded c F2 ∧ (l ≠ [] → 0 < F2) := by
  intro l
  induction l with
  | nil =>
    intro clip c F h hp
    obtain rfl := Option.some_inj.mp h
    exact ⟨F, le_rfl, hp, fun hne => absurd rfl hne⟩
  | cons n rest ih =>
    intro clip c F h hp
    obtain ⟨ts, te, v, row⟩ := n
    rw [overlayLoop_cons] at h
    cases hO : overlayNote clip row ts te v sr with
    | none => rw [hO, optBind_none] at h; exact Option.noConfusion h
    | some c1 =>
      rw [hO, optBind_some] at h
      obtain ⟨F1, hFF1, hF1pos, hp1⟩ := overlayNote_padded hO hp
      obtain ⟨F2, hF1F2, hp2, _⟩ := ih h hp1
      exact ⟨F2, le_trans hFF1 hF1F2, hp2, fun _ => lt_of_lt_of_le hF1pos hF1F2⟩

theorem combine_notes_bounds {rows : List Arr} {ts es vs : List ℚ} {sr : ℕ} {clip : Arr}
    (h : combine_notes rows ts es vs sr = some clip) :
    (∀ i, i < clip.size → clip.val i ≤ 1/2) ∧ ∃ i, i < clip.size ∧ clip.val i = 1/2 := by
  obtain ⟨tmax, pre, M, hT, h3, hL, hM, hM0, hclip⟩ := combine_notes_some h
  have hMnn : 0 ≤ M := by
    cases hz : zipNotes ts es vs rows with
    | nil =>
      rw [hz, overlayLoop_nil] at hL
      obtain rfl := Option.some_inj.mp hL
      exact absurd (amax_zerosA hM) hM0
    | cons n rest =>
      rw [hz] at hL
      obtain ⟨F2, _, hp2, hpos⟩ := overlayLoop_padded hL (padded_zerosA _)
      have hpos2 := hpos (by simp)
      have hzero : pre.val (F2 - 1) = 0 := hp2.2.2 hpos2
      have hlt : F2 - 1 < pre.size := by
        have h1 := hp2.1
        omega
      calc (0:ℚ) = pre.val (F2 - 1) := hzero.symm
        _ ≤ M := amax_le hM hlt
  have hMpos : 0 < M := lt_of_le_of_ne hMnn (Ne.symm hM0)
  subst hclip
  constructor
  · intro i hi
    show pre.val i / M / 2 ≤ 1/2
    have h1 : pre.val i ≤ M := amax_le hM hi
    have h2 : pre.val i / M ≤ 1 := (div_le_one hMpos).mpr h1
    linarith
  · obtain ⟨k, hk, hkv⟩ := amax_mem hM
    refine ⟨k, hk, ?_⟩
    show pre.val k / M / 2 = 1/2
    rw [hkv, div_self hM0]

theorem processNote_none {row : Arr} {ts te v : ℚ} {e : Arr}
    (hE : get_envelope (te - ts) (1/100) (3/10) 16000 = some e)
    (hsz : e.size ≤ row.size)
    (hm : amax ⟨e.size, fun k => row.val k * e.val k⟩ = some 0) :
    processNote row ts te v = none := by
  unfold processNote noteAudio
  rw [hE, optBind_some, if_pos hsz, optBind_some, hm, optBind_some, if_pos rfl]

theorem combine_notes_single_none {row : Arr} {ts te v : ℚ} {sr : ℕ}
    (h3 : 0 ≤ pyInt (te + 3)) (hP : processNote row ts te v = none) :
    combine_notes [row] [ts] [te] [v] sr = none := by
  unfold combine_notes
  rw [npMax_single, optBind_some, if_pos h3, zipNotes_single, overlayLoop_cons]
  have hO : overlayNote (zerosA (clip_samples te sr)) row ts te v sr = none := by
    unfold overlayNote
    rw [hP, optBind_none]
  rw [hO, optBind_none, optBind_none]

theorem overlayNoteB : overlayNote (zerosA (clip_samples (1/10000) 16000)) (onesA 4800)
    (1/10000) (1/10000) 127 16000 =
    some (addSlice (zerosA (clip_samples (1/10000) 16000)) 1
      ⟨(envelopeArr ((1:ℚ)/10000 - 1/10000)).size,
        fun k => (onesA 4800).val k * (envelopeArr ((1:ℚ)/10000 - 1/10000)).val k / 1 *
          (127/127)⟩) := by
  have hSB : sustainSamples ((1:ℚ)/10000 - 1/10000) = 0 := by
    unfold sustainSamples
    norm_num [pyInt, min_def]
  have hCS : clip_samples (1/10000) 16000 = 48000 := by
    unfold clip_samples
    norm_num [pyInt]
    rfl
  have hoff : (pyInt (((1:ℚ)/10000) * ((16000:ℕ):ℚ))).toNat = 1 := by
    norm_num [pyInt]
  have hv : ∀ k, k < 4800 → (envelopeArr ((1:ℚ)/10000 - 1/10000)).val k = 1 - k / 4799 :=
    fun k hk => envelopeArr_val_S0 hSB hk
  have hE := @get_envelope_default ((1:ℚ)/10000 - 1/10000) (by norm_num)
  have hsz : (envelopeArr ((1:ℚ)/10000 - 1/10000)).size ≤ (onesA 4800).size := by
    rw [envelopeArr_size, hSB]
    show 0 + 4800 ≤ 4800
    norm_num
  have hm : amax ⟨(envelopeArr ((1:ℚ)/10000 - 1/10000)).size,
      fun k => (onesA 4800).val k * (envelopeArr ((1:ℚ)/10000 - 1/10000)).val k⟩ = some 1 := by
    apply amax_eq_of
    · rw [envelopeArr_size, hSB]
      norm_num
    · intro k
      simpa [onesA] using envelopeArr_val_le_one ((1:ℚ)/10000 - 1/10000) k
    · refine ⟨0, ?_, ?_⟩
      · show 0 < (envelopeArr ((1:ℚ)/10000 - 1/10000)).size
        rw [envelopeArr_size, hSB]
        norm_num
      · show (onesA 4800).val 0 * (envelopeArr ((1:ℚ)/10000 - 1/10000)).val 0 = 1
        rw [hv 0 (by norm_num)]
        norm_num [onesA]
  have hP := @processNote_eq (onesA 4800) (1/10000) (1/10000) 127 _ _
    hE hsz hm one_ne_zero
  have h1 : 0 ≤ pyInt (((1:ℚ)/10000) * ((16000:ℕ):ℚ)) := by norm_num [pyInt]
  have h2 : (pyInt (((1:ℚ)/10000) * ((16000:ℕ):ℚ))).toNat +
      (⟨(envelopeArr ((1:ℚ)/10000 - 1/10000)).size,
        fun k => (onesA 4800).val k * (envelopeArr ((1:ℚ)/10000 - 1/10000)).val k / 1 *
          (127/127)⟩ : Arr).size ≤ (zerosA (clip_samples (1/10000) 16000)).size := by
    show (pyInt (((1:ℚ)/10000) * ((16000:ℕ):ℚ))).toNat +
      (envelopeArr ((1:ℚ)/10000 - 1/10000)).size ≤ clip_samples (1/10000) 16000
    rw [hoff, envelopeArr_size, hSB, hCS]
    norm_num
  have hO := @overlayNote_eq (zerosA (clip_samples (1/10000) 16000)) _ _ _ _ 16000 _
    hP h1 h2
  rwa [hoff] at hO

/-
Claim theorems.
-/

/-- C1, counterexample: at note duration d = 1/3 s the envelope has
10133 samples, while the claimed formula `sr * min(d, 3.0) + sr * release`
equals 30400/3, which is not 10133: the code floors the sustain sample
count with `int()`. -/
theorem C1_counterexample :
    (get_envelope (1/3) (1/100) (3/10) 16000).map Arr.size = some 10133 ∧
    ¬(((10133:ℕ):ℚ) = 16000 * min (1/3 : ℚ) 3 + 16000 * (3/10)) := by
  constructor
  · rw [get_envelope_default (by norm_num), Option.map_some', envelopeArr_size]
    have hS : sustainSamples (1/3) = 5333 := by
      unfold sustainSamples
      norm_num [pyInt, min_def]
      rfl
    rw [hS]
  · norm_num [min_def]

/-- C1, amended: for every note duration d ≥ 0 and the default parameters,
the envelope returned by `get_envelope d` has
`int(sr * min(d, 3.0)) + sr * release_seconds` samples (the sustain sample
count is truncated to an integer); the attack does not add to the length. -/
theorem C1_theorem (d : ℚ) (hd : 0 ≤ d) :
    (get_envelope d (1/100) (3/10) 16000).map Arr.size = some (sustainSamples d + 4800) := by
  rw [get_envelope_default hd, Option.map_some', envelopeArr_size]

/-- C1, witness at d = 1/3. -/
theorem C1_witness : (0:ℚ) ≤ 1/3 ∧
    (get_envelope (1/3) (1/100) (3/10) 16000).map Arr.size =
      some (sustainSamples (1/3) + 4800) :=
  ⟨by norm_num, C1_theorem (1/3) (by norm_num)⟩

/-- C2, counterexample: at note duration d = 1/200 s (> 0), the envelope
value at sample index `sr * attack_seconds = 160` is 4719/4799, not 1.0:
the release ramp starts at `int(sr * d) = 80 < 160` and overwrites the top
of the attack ramp, so the claimed shape fails for d below the attack
duration. -/
theorem C2_counterexample : (0:ℚ) < 1/200 ∧
    (get_envelope (1/200) (1/100) (3/10) 16000).map (fun e => e.val 160) =
      some (4719/4799) ∧ ((4719:ℚ)/4799 ≠ 1) := by
  refine ⟨by norm_num, ?_, by norm_num⟩
  rw [get_envelope_default (by norm_num), Option.map_some']
  have hS : sustainSamples (1/200) = 80 := by
    unfold sustainSamples
    norm_num [pyInt, min_def]
    rfl
  have h := @envelopeArr_val_release (1/200) 80 (by norm_num)
  rw [hS] at h
  norm_num at h
  rw [h]

/-- C2, amended: for every note duration d ≥ attack_seconds = 0.010 and the
default parameters, the envelope satisfies `envelope[0] = 0`, ramps
linearly (value k/159 at index k < 160) up to 1.0 at index
`sr * attack_seconds = 160`, stays at 1.0 from there up to and including
the sustain end index `int(sr * min(d, 3.0))`, and ramps linearly down
(value 1 - k/4799 at offset k of the release) to 0.0 at the final
sample.  For 0 < d < 0.010 the release overwrites part of the attack and
the claimed shape fails (see the counterexample). -/
theorem C2_theorem (d : ℚ) (hd : 1/100 ≤ d) :
    ∃ e, get_envelope d (1/100) (3/10) 16000 = some e ∧
      e.val 0 = 0 ∧
      (∀ k, k < 160 → e.val k = k / 159) ∧
      (∀ k, 160 ≤ k → k ≤ sustainSamples d → e.val k = 1) ∧
      (∀ k, k < 4800 → e.val (sustainSamples d + k) = 1 - k / 4799) ∧
      e.val (e.size - 1) = 0 := by
  have hd0 : (0:ℚ) ≤ d := le_trans (by norm_num) hd
  have hmin : (1:ℚ)/100 ≤ min d 3 := le_min hd (by norm_num)
  have h1 : (160:ℚ) ≤ 16000 * min d 3 := by nlinarith
  have h2 : (160:ℤ) ≤ pyInt (16000 * min d 3) := by
    rw [pyInt_of_nonneg (by linarith)]
    exact Int.le_floor.mpr (by push_cast; linarith)
  have hS160 : 160 ≤ sustainSamples d := by
    unfold sustainSamples
    omega
  refine ⟨envelopeArr d, get_envelope_default hd0, ?_, ?_, ?_, ?_, ?_⟩
  · rw [envelopeArr_val_attack (by omega) (by norm_num)]
    norm_num
  · intro k hk
    exact envelopeArr_val_attack (by omega) hk
  · intro k hk1 hk2
    rcases lt_or_eq_of_le hk2 with hlt | heq
    · exact envelopeArr_val_mid hk1 hlt
    · subst heq
      have h := @envelopeArr_val_release d 0 (by norm_num)
      rw [Nat.add_zero] at h
      rw [h]
      norm_num
  · intro k hk
    exact envelopeArr_val_release hk
  · rw [envelopeArr_size]
    exact envelopeArr_val_last d

/-- C2, witness at d = 1. -/
theorem C2_witness : (1:ℚ)/100 ≤ 1 ∧
    ∃ e, get_envelope 1 (1/100) (3/10) 16000 = some e ∧
      e.val 0 = 0 ∧
      (∀ k, k < 160 → e.val k = k / 159) ∧
      (∀ k, 160 ≤ k → k ≤ sustainSamples 1 → e.val k = 1) ∧
      (∀ k, k < 4800 → e.val (sustainSamples 1 + k) = 1 - k / 4799) ∧
      e.val (e.size - 1) = 0 :=
  ⟨by norm_num, C2_theorem 1 (by norm_num)⟩

/-- C3, counterexample: for the single note (start 0, end 2.5 s, velocity
127) at the default rate, the returned clip has
`int(2.5 + 3.0) * 16000 = 80000` samples, not `(2.5 + 3.0) * 16000 =
88000`: the code computes `np.zeros(int(clip_length) * sr)`, flooring the
clip length in seconds before scaling by the sample rate. -/
theorem C3_counterexample :
    (combine_notes [onesA 44800] [0] [5/2] [127] 16000).map Arr.size = some 80000 ∧
    ¬(((80000:ℕ):ℚ) = ((5/2 : ℚ) + 3) * 16000) := by
  constructor
  · obtain ⟨c, hc, hsize⟩ := combineA
    rw [hc, Option.map_some', hsize]
  · norm_num

/-- C3, amended: whenever `combine_notes` returns a clip, the clip has
`int(end_times.max() + 3.0) * sr` samples (the clip length in seconds is
truncated to an integer before scaling by the sample rate). -/
theorem C3_theorem {rows : List Arr} {ts es vs : List ℚ} {sr : ℕ} {clip : Arr}
    (h : combine_notes rows ts es vs sr = some clip) :
    ∃ tmax, npMax es = some tmax ∧ clip.size = clip_samples tmax sr := by
  obtain ⟨tmax, pre, M, hT, _, hL, _, _, hclip⟩ := combine_notes_some h
  refine ⟨tmax, hT, ?_⟩
  rw [hclip]
  show pre.size = clip_samples tmax sr
  rw [overlayLoop_size hL]
  rfl

/-- C3, witness at the counterexample input. -/
theorem C3_witness : ∃ clip,
    combine_notes [onesA 44800] [0] [5/2] [127] 16000 = some clip ∧
    ∃ tmax, npMax [5/2] = some tmax ∧ clip.size = clip_samples tmax 16000 := by
  obtain ⟨c, hc, _⟩ := combineA
  exact ⟨c, hc, C3_theorem hc⟩

/-- C4, counterexample: for a single note starting at 0.0001 s
(`start * sr = 1.6`), the code places the note at sample `int(1.6) = 1`,
not `round(1.6) = 2`: the two placements give different clips, e.g. at
sample index 2 the actual clip holds 2399/4799 while the round-offset
variant holds 1/2. -/
theorem C4_counterexample :
    (combine_notes [onesA 4800] [1/10000] [1/10000] [127] 16000).map (fun c => c.val 2) =
      some (2399/4799) ∧
    (combine_notes_round [onesA 4800] [1/10000] [1/10000] [127] 16000).map (fun c => c.val 2) =
      some (1/2) ∧
    ((2399:ℚ)/4799 ≠ 1/2) := by
  refine ⟨?_, ?_, by norm_num⟩
  · obtain ⟨c, hc, _, hval⟩ := combineB
    rw [hc, Option.map_some', hval]
  · obtain ⟨c, hc, hval⟩ := combineBround
    rw [hc, Option.map_some', hval]

/-- C4, amended: every note processed by `combine_notes` has its enveloped,
normalized, velocity-scaled audio additively overlaid into the clip buffer
starting at sample offset `int(start_time * sample_rate)` (truncation, not
rounding): inside the note's window the new clip is the old clip plus the
processed note, and outside it the clip is unchanged. -/
theorem C4_theorem {clip row : Arr} {ts te v : ℚ} {sr : ℕ} {c : Arr}
    (h : overlayNote clip row ts te v sr = some c) :
    ∃ an, processNote row ts te v = some an ∧ c.size = clip.size ∧
      (∀ k, k < an.size →
        c.val ((pyInt (ts * sr)).toNat + k) =
          clip.val ((pyInt (ts * sr)).toNat + k) + an.val k) ∧
      (∀ j, j < clip.size →
        (j < (pyInt (ts * sr)).toNat ∨ (pyInt (ts * sr)).toNat + an.size ≤ j) →
        c.val j = clip.val j) := by
  obtain ⟨an, hP, ho, hfit, hc⟩ := overlayNote_some h
  refine ⟨an, hP, by rw [hc, addSlice_size], ?_, ?_⟩
  · intro k hk
    rw [hc, addSlice_val_in _ _ (Nat.le_add_right _ _) (by omega), Nat.add_sub_cancel_left]
  · intro j hj hout
    rw [hc, addSlice_val_out]
    intro hC
    rcases hout with h1 | h2
    · omega
    · omega

/-- C4, witness at the counterexample input. -/
theorem C4_witness : ∃ c,
    overlayNote (zerosA (clip_samples (1/10000) 16000)) (onesA 4800)
      (1/10000) (1/10000) 127 16000 = some c ∧
    ∃ an, processNote (onesA 4800) (1/10000) (1/10000) 127 = some an ∧
      c.size = (zerosA (clip_samples (1/10000) 16000)).size ∧
      (∀ k, k < an.size →
        c.val ((pyInt ((1/10000 : ℚ) * ((16000:ℕ):ℚ))).toNat + k) =
          (zerosA (clip_samples (1/10000) 16000)).val
            ((pyInt ((1/10000 : ℚ) * ((16000:ℕ):ℚ))).toNat + k) + an.val k) ∧
      (∀ j, j < (zerosA (clip_samples (1/10000) 16000)).size →
        (j < (pyInt ((1/10000 : ℚ) * ((16000:ℕ):ℚ))).toNat ∨
          (pyInt ((1/10000 : ℚ) * ((16000:ℕ):ℚ))).toNat + an.size ≤ j) →
        c.val j = (zerosA (clip_samples (1/10000) 16000)).val j) :=
  ⟨_, overlayNoteB, C4_theorem overlayNoteB⟩

/-- C5, counterexample: `combine_notes` divides by the clip's signed
maximum, not by its peak absolute value, so samples can fall below -0.5:
for one note whose raw audio is 1 at sample 0 and -4 at sample 1, the
returned clip has value -9596/4799 ≈ -2 at sample 1, whose absolute value
exceeds 0.5. -/
theorem C5_counterexample :
    (combine_notes [rowC5] [0] [0] [127] 16000).map Arr.size = some 48000 ∧
    (combine_notes [rowC5] [0] [0] [127] 16000).map (fun c => c.val 1) =
      some (-9596/4799) ∧
    ¬(|(-9596/4799 : ℚ)| ≤ 1/2) := by
  refine ⟨?_, ?_, ?_⟩
  · obtain ⟨c, hc, hsize, _⟩ := combineE
    rw [hc, Option.map_some', hsize]
  · obtain ⟨c, hc, _, hval⟩ := combineE
    rw [hc, Option.map_some', hval]
  · intro hC
    rw [abs_le] at hC
    have h := hC.1
    norm_num at h

/-- C5, amended: on every input on which `combine_notes` completes, every
sample of the returned clip is at most 0.5 (as a signed value) and some
sample equals exactly 0.5 (the location of the pre-normalization maximum);
samples below -0.5 are possible because the final normalization divides by
the signed maximum `audio_clip.max()`, not by the peak absolute value. -/
theorem C5_theorem {rows : List Arr} {ts es vs : List ℚ} {sr : ℕ} {clip : Arr}
    (h : combine_notes rows ts es vs sr = some clip) :
    (∀ i, i < clip.size → clip.val i ≤ 1/2) ∧ ∃ i, i < clip.size ∧ clip.val i = 1/2 :=
  combine_notes_bounds h

/-- C5, witness at the counterexample input. -/
theorem C5_witness : ∃ clip,
    combine_notes [rowC5] [0] [0] [127] 16000 = some clip ∧
    ((∀ i, i < clip.size → clip.val i ≤ 1/2) ∧ ∃ i, i < clip.size ∧ clip.val i = 1/2) := by
  obtain ⟨c, hc, _, _⟩ := combineE
  exact ⟨c, hc, C5_theorem hc⟩

/-- C9, confirmed: the per-note normalization `audio_note /= audio_note.max()`
has no guard, and its division-by-zero case is reachable: for a note whose
raw audio row is identically zero, the truncated enveloped audio is all
zeros, its maximum is 0, and `combine_notes` runs into the division by zero
(modelled as `none`). -/
theorem C9_theorem :
    (∀ k, (zerosA 4800).val k * (envelopeArr ((0:ℚ) - 0)).val k = 0) ∧
    amax ⟨(envelopeArr ((0:ℚ) - 0)).size,
      fun k => (zerosA 4800).val k * (envelopeArr ((0:ℚ) - 0)).val k⟩ = some 0 ∧
    processNote (zerosA 4800) 0 0 127 = none ∧
    combine_notes [zerosA 4800] [0] [0] [127] 16000 = none := by
  have hSE : sustainSamples ((0:ℚ) - 0) = 0 := by
    unfold sustainSamples
    norm_num [pyInt, min_def]
  have hz : ∀ k, (zerosA 4800).val k * (envelopeArr ((0:ℚ) - 0)).val k = 0 := by
    intro k
    show (0:ℚ) * _ = 0
    rw [zero_mul]
  have hm : amax ⟨(envelopeArr ((0:ℚ) - 0)).size,
      fun k => (zerosA 4800).val k * (envelopeArr ((0:ℚ) - 0)).val k⟩ = some 0 := by
    apply amax_eq_of
    · rw [envelopeArr_size, hSE]
      norm_num
    · intro k
      show (zerosA 4800).val k * (envelopeArr ((0:ℚ) - 0)).val k ≤ 0
      rw [hz k]
    · refine ⟨0, ?_, hz 0⟩
      show 0 < (envelopeArr ((0:ℚ) - 0)).size
      rw [envelopeArr_size, hSE]
      norm_num
  have hsz : (envelopeArr ((0:ℚ) - 0)).size ≤ (zerosA 4800).size := by
    rw [envelopeArr_size, hSE]
    show 0 + 4800 ≤ 4800
    norm_num
  have hP := @processNote_none (zerosA 4800) 0 0 127 _ (get_envelope_default (by norm_num)) hsz hm
  exact ⟨hz, hm, hP, combine_notes_single_none (by norm_num [pyInt]) hP⟩

/-- C10, counterexample: the in-bounds property fails for general sr ≥ 1,
because `get_envelope` always builds its envelope at 16000 samples per
second regardless of the sample rate passed to `combine_notes`: at sr = 1,
a note with start = end = max end time = 0 satisfies every hypothesis of
the claim, yet its envelope has 4800 samples while the whole clip buffer
has `int(0 + 3.0) * 1 = 3` samples, so
`int(start * sr) + envelope_length ≤ clip_length` is false. -/
theorem C10_counterexample : 1 ≤ (1:ℕ) ∧ (0:ℚ) ≤ 0 ∧
    (get_envelope ((0:ℚ) - 0) (1/100) (3/10) 16000).map Arr.size = some 4800 ∧
    ¬((pyInt ((0:ℚ) * ((1:ℕ):ℚ))).toNat + 4800 ≤ clip_samples 0 1) := by
  refine ⟨le_rfl, le_rfl, ?_, ?_⟩
  · rw [get_envelope_default (by norm_num), Option.map_some', envelopeArr_size]
    have hSE : sustainSamples ((0:ℚ) - 0) = 0 := by
      unfold sustainSamples
      norm_num [pyInt, min_def]
    rw [hSE]
  · have hCS : clip_samples 0 1 = 3 := by
      unfold clip_samples
      norm_num [pyInt]
      rfl
    rw [hCS]
    omega

/-- C10, amended: at the default sample rate sr = 16000, for every note
with `0 ≤ start_time ≤ end_time ≤ max end time`, the per-note overlay
slice lies entirely within the clip buffer:
`int(start_time * sr) + envelope_length ≤ int(max_end + 3.0) * sr`, so the
additive write `audio_clip[clip_start:clip_end]` never goes out of
bounds. -/
theorem C10_theorem (t_s t_e tmax : ℚ) (h0 : 0 ≤ t_s) (h1 : t_s ≤ t_e) (h2 : t_e ≤ tmax) :
    (get_envelope (t_e - t_s) (1/100) (3/10) 16000).isSome = true ∧
    ∀ e, get_envelope (t_e - t_s) (1/100) (3/10) 16000 = some e →
      (pyInt (t_s * ((16000:ℕ):ℚ))).toNat + e.size ≤ clip_samples tmax 16000 := by
  have hd : (0:ℚ) ≤ t_e - t_s := by linarith
  constructor
  · rw [get_envelope_default hd]
    rfl
  · intro e hE
    have he := get_envelope_default_some hE
    rw [he, envelopeArr_size]
    unfold sustainSamples clip_samples
    have hA0 : (0:ℚ) ≤ t_s * ((16000:ℕ):ℚ) := by positivity
    have hS0 : (0:ℚ) ≤ 16000 * min (t_e - t_s) 3 := by
      have := le_min hd (show (0:ℚ) ≤ 3 by norm_num)
      positivity
    have htm : (0:ℚ) ≤ tmax := by linarith
    rw [pyInt_of_nonneg hA0, pyInt_of_nonneg hS0, pyInt_of_nonneg (by linarith : (0:ℚ) ≤ tmax + 3)]
    have hfl1 : (⌊t_s * ((16000:ℕ):ℚ)⌋ : ℚ) ≤ t_s * 16000 := by
      have := Int.floor_le (t_s * ((16000:ℕ):ℚ))
      push_cast at this ⊢
      linarith
    have hfl2 : (⌊(16000:ℚ) * min (t_e - t_s) 3⌋ : ℚ) ≤ 16000 * (t_e - t_s) := by
      have h3 := Int.floor_le ((16000:ℚ) * min (t_e - t_s) 3)
      have h4 : (16000:ℚ) * min (t_e - t_s) 3 ≤ 16000 * (t_e - t_s) := by
        have := min_le_left (t_e - t_s) (3:ℚ)
        nlinarith
      linarith
    have hfl3 : (16000:ℚ) * tmax < 16000 * (⌊tmax⌋ + 1) := by
      have := Int.lt_floor_add_one tmax
      nlinarith
    have hkey : ⌊t_s * ((16000:ℕ):ℚ)⌋ + ⌊(16000:ℚ) * min (t_e - t_s) 3⌋ + 4800 ≤
        ⌊tmax + 3⌋ * 16000 := by
      have hsum : (⌊t_s * ((16000:ℕ):ℚ)⌋ : ℚ) + ⌊(16000:ℚ) * min (t_e - t_s) 3⌋ ≤
          16000 * tmax := by
        push_cast at hfl1 hfl2 ⊢
        nlinarith
      have hbig : (⌊t_s * ((16000:ℕ):ℚ)⌋ : ℚ) + ⌊(16000:ℚ) * min (t_e - t_s) 3⌋ <
          16000 * ⌊tmax⌋ + 16000 := by
        push_cast at hsum hfl3 ⊢
        linarith
      have hint : ⌊t_s * ((16000:ℕ):ℚ)⌋ + ⌊(16000:ℚ) * min (t_e - t_s) 3⌋ <
          16000 * ⌊tmax⌋ + 16000 := by
        exact_mod_cast hbig
      have hfloor3 : ⌊tmax + (3:ℚ)⌋ = ⌊tmax⌋ + 3 := by
        have := Int.floor_add_int tmax (3:ℤ)
        push_cast at this
        exact_mod_cast this
      rw [hfloor3]
      nlinarith [hint]
    have hA : 0 ≤ ⌊t_s * ((16000:ℕ):ℚ)⌋ := Int.floor_nonneg.mpr hA0
    have hS : 0 ≤ ⌊(16000:ℚ) * min (t_e - t_s) 3⌋ := Int.floor_nonneg.mpr hS0
    have hT : 0 ≤ ⌊tmax + (3:ℚ)⌋ := Int.floor_nonneg.mpr (by linarith)
    omega

/-- C10, witness at start 0, end 1, max end 1. -/
theorem C10_witness : ((0:ℚ) ≤ 0 ∧ (0:ℚ) ≤ 1 ∧ (1:ℚ) ≤ 1) ∧
    (get_envelope ((1:ℚ) - 0) (1/100) (3/10) 16000).isSome = true ∧
    ∀ e, get_envelope ((1:ℚ) - 0) (1/100) (3/10) 16000 = some e →
      (pyInt ((0:ℚ) * ((16000:ℕ):ℚ))).toNat + e.size ≤ clip_samples 1 16000 :=
  ⟨⟨le_rfl, by norm_num, le_rfl⟩, C10_theorem 0 1 1 le_rfl (by norm_num) le_rfl⟩

/-- C6, confirmed: for every dry signal with zero frames and every fx list,
`_apply_fxs` returns the empty list; the result is the same for every
convolution function `func`, which formalizes that the loop body — and so
the convolution — is never invoked. -/
theorem C6_theorem (dry : Sig) (fxs : List Sig) (func : Sig → Sig → Sig)
    (h : dry.frame_count = 0) : _apply_fxs dry fxs func = [] := by
  unfold _apply_fxs
  rw [if_pos h]

/-- C6, witness: a zero-frame dry signal with a 100-frame fx signal. -/
theorem C6_witness : (⟨44100, 1, 0, fun _ _ => 0⟩ : Sig).frame_count = 0 ∧
    _apply_fxs ⟨44100, 1, 0, fun _ _ => 0⟩ [⟨44100, 2, 100, fun _ _ => 0⟩]
      (fun a _ => a) = [] :=
  ⟨rfl, C6_theorem _ _ _ rfl⟩

/-- C7, confirmed: for every dry signal with nonzero frame count,
`_apply_fxs dry fxs func` returns exactly one wet signal per fx, in the
order of the fx list, and the element for each fx equals `func dry fx`
(the source defaults `func` to `_convolve`). -/
theorem C7_theorem (dry : Sig) (fxs : List Sig) (func : Sig → Sig → Sig)
    (h : dry.frame_count ≠ 0) :
    (_apply_fxs dry fxs func).length = fxs.length ∧
    ∀ i : ℕ, (_apply_fxs dry fxs func)[i]? = (fxs[i]?).map (fun fx => func dry fx) := by
  unfold _apply_fxs
  rw [if_neg h]
  exact ⟨List.length_map _ _, fun i => List.getElem?_map _ _ _⟩

/-- C7, witness: a 5-frame dry signal against two fx signals. -/
theorem C7_witness : (⟨44100, 1, 5, fun _ _ => 1⟩ : Sig).frame_count ≠ 0 ∧
    ((_apply_fxs ⟨44100, 1, 5, fun _ _ => 1⟩
        [⟨44100, 1, 7, fun _ _ => 2⟩, ⟨44100, 1, 9, fun _ _ => 3⟩]
        (fun _ b => b)).length = 2 ∧
      ∀ i : ℕ, (_apply_fxs ⟨44100, 1, 5, fun _ _ => 1⟩
          [⟨44100, 1, 7, fun _ _ => 2⟩, ⟨44100, 1, 9, fun _ _ => 3⟩]
          (fun _ b => b))[i]? =
        (([⟨44100, 1, 7, fun _ _ => 2⟩, ⟨44100, 1, 9, fun _ _ => 3⟩] :
            List Sig)[i]?).map (fun fx => (fun _ b => b) (⟨44100, 1, 5, fun _ _ => 1⟩ : Sig) fx)) :=
  ⟨by decide, C7_theorem _ _ _ (by decide)⟩

/-- C8, confirmed: in `_convolve`, after both inputs are resampled to the
configured rate, the pair handed to the convolution is: both downmixed to
mono and peak-normalized when either signal is mono, and otherwise both
kept as they are (multi-channel) and normalized with the sum-based
strategy.  (The helper semantics are modelled from the spec: the helper
module is not part of the repository sources.) -/
theorem C8_theorem (cfg : FxConfig) (dry fx : Sig) :
    ((__is_mono (__set_sample_rate dry cfg.s_rate) ∨
        __is_mono (__set_sample_rate fx cfg.s_rate)) →
      _convolve_prepared cfg dry fx =
        (__normalize (__convert (__set_sample_rate dry cfg.s_rate) __mono) NormKind.peak,
         __normalize (__convert (__set_sample_rate fx cfg.s_rate) __mono) NormKind.peak) ∧
      (_convolve_prepared cfg dry fx).1.chans = 1 ∧
      (_convolve_prepared cfg dry fx).2.chans = 1) ∧
    (¬(__is_mono (__set_sample_rate dry cfg.s_rate) ∨
        __is_mono (__set_sample_rate fx cfg.s_rate)) →
      _convolve_prepared cfg dry fx =
        (__normalize (__convert (__set_sample_rate dry cfg.s_rate) id) NormKind.sums,
         __normalize (__convert (__set_sample_rate fx cfg.s_rate) id) NormKind.sums) ∧
      (_convolve_prepared cfg dry fx).1.chans = dry.chans ∧
      (_convolve_prepared cfg dry fx).2.chans = fx.chans) := by
  constructor
  · intro h
    have heq : _convolve_prepared cfg dry fx =
        (__normalize (__convert (__set_sample_rate dry cfg.s_rate) __mono) NormKind.peak,
         __normalize (__convert (__set_sample_rate fx cfg.s_rate) __mono) NormKind.peak) := by
      unfold _convolve_prepared
      simp only
      rw [if_pos h]
    exact ⟨heq, by rw [heq]; rfl, by rw [heq]; rfl⟩
  · intro h2
    have heq : _convolve_prepared cfg dry fx =
        (__normalize (__convert (__set_sample_rate dry cfg.s_rate) id) NormKind.sums,
         __normalize (__convert (__set_sample_rate fx cfg.s_rate) id) NormKind.sums) := by
      unfold _convolve_prepared
      simp only
      rw [if_neg h2]
    exact ⟨heq, by rw [heq]; rfl, by rw [heq]; rfl⟩

/-- C8, witness: one mono pair (both branches' hypotheses discharged at
concrete signals) and one stereo pair. -/
theorem C8_witness :
    (_convolve_prepared ⟨44100, ConvMode.full⟩ ⟨48000, 1, 4, fun _ _ => 1⟩
        ⟨48000, 1, 6, fun _ _ => 2⟩ =
      (__normalize (__convert (__set_sample_rate ⟨48000, 1, 4, fun _ _ => 1⟩
          (⟨44100, ConvMode.full⟩ : FxConfig).s_rate) __mono) NormKind.peak,
       __normalize (__convert (__set_sample_rate ⟨48000, 1, 6, fun _ _ => 2⟩
          (⟨44100, ConvMode.full⟩ : FxConfig).s_rate) __mono) NormKind.peak) ∧
      (_convolve_prepared ⟨44100, ConvMode.full⟩ ⟨48000, 1, 4, fun _ _ => 1⟩
        ⟨48000, 1, 6, fun _ _ => 2⟩).1.chans = 1 ∧
      (_convolve_prepared ⟨44100, ConvMode.full⟩ ⟨48000, 1, 4, fun _ _ => 1⟩
        ⟨48000, 1, 6, fun _ _ => 2⟩).2.chans = 1) ∧
    (_convolve_prepared ⟨44100, ConvMode.full⟩ ⟨48000, 2, 4, fun _ _ => 1⟩
        ⟨48000, 2, 6, fun _ _ => 2⟩ =
      (__normalize (__convert (__set_sample_rate ⟨48000, 2, 4, fun _ _ => 1⟩
          (⟨44100, ConvMode.full⟩ : FxConfig).s_rate) id) NormKind.sums,
       __normalize (__convert (__set_sample_rate ⟨48000, 2, 6, fun _ _ => 2⟩
          (⟨44100, ConvMode.full⟩ : FxConfig).s_rate) id) NormKind.sums) ∧
      (_convolve_prepared ⟨44100, ConvMode.full⟩ ⟨48000, 2, 4, fun _ _ => 1⟩
        ⟨48000, 2, 6, fun _ _ => 2⟩).1.chans = (⟨48000, 2, 4, fun _ _ => 1⟩ : Sig).chans ∧
      (_convolve_prepared ⟨44100, ConvMode.full⟩ ⟨48000, 2, 4, fun _ _ => 1⟩
        ⟨48000, 2, 6, fun _ _ => 2⟩).2.chans = (⟨48000, 2, 6, fun _ _ => 2⟩ : Sig).chans) :=
  ⟨(C8_theorem ⟨44100, ConvMode.full⟩ ⟨48000, 1, 4, fun _ _ => 1⟩
      ⟨48000, 1, 6, fun _ _ => 2⟩).1 (Or.inl rfl),
   (C8_theorem ⟨44100, ConvMode.full⟩ ⟨48000, 2, 4, fun _ _ => 1⟩
      ⟨48000, 2, 6, fun _ _ => 2⟩).2 (by decide)⟩
